import Mathlib

/-!
Shallow embedding of the edarop package (model.py, analysis.py, edarop.py,
simple_allocator.py) and proofs about its specification.

Numeric values (Python floats) are modelled as rationals; Python dicts are
modelled as insertion-ordered association lists; Python exceptions are
modelled with `Except` over an error enumeration whose constructors name
the raise site (the source raises `ValueError`, `KeyError`, `IndexError`
or `ZeroDivisionError`; the spec gives them the names NotFeasible,
InvalidSolverValue, and so on).
-/

deriving instance DecidableEq for Except

namespace edarop

/-- Error kinds for the `Except` embedding of Python exceptions. -/
inductive AErr where
  | notFeasible
  | invalidSolverValue
  | keyError
  | indexError
  | zeroDiv
  | unitError
  | valueError
deriving DecidableEq, Repr

/-- Association-list lookup, modelling Python `d[k]` / `k in d`. -/
def alookup {α β : Type} [DecidableEq α] : List (α × β) → α → Option β
  | [], _ => none
  | p :: ps, k => if p.1 = k then some p.2 else alookup ps k

/-- Python pattern `if k not in d: d[k] = 0` followed by `d[k] += v`:
when the key is present the stored value is increased in place, otherwise
the pair is appended (Python dicts preserve insertion order). -/
def addTo {α : Type} [DecidableEq α] (d : List (α × ℚ)) (k : α) (v : ℚ) :
    List (α × ℚ) :=
  if (alookup d k).isSome then
    d.map (fun p => if p.1 = k then (p.1, p.2 + v) else p)
  else d ++ [(k, v)]

/-- Turns an `Option` into an `Except`, raising the given error on `none`. -/
def orThrow {β : Type} (o : Option β) (e : AErr) : Except AErr β :=
  match o with
  | none => Except.error e
  | some b => Except.ok b

/-- The class attribute `TimeUnit.conversion_factors` of model.py. -/
def conversion_factors (u : String) : Option ℚ :=
  if u = "s" then some 1
  else if u = "m" then some 60
  else if u = "h" then some 3600
  else if u = "d" then some 86400
  else if u = "y" then some 31536000
  else none

/-- model.py `TimeUnit`: a unit string together with an amount. -/
structure TimeUnit where
  unit : String
  amount : ℚ := 1
deriving DecidableEq, Repr

/-- model.py `TimeUnit.check_valid_unit`, as a Boolean. -/
def TimeUnit.valid (t : TimeUnit) : Bool :=
  (conversion_factors t.unit).isSome

/-- model.py `TimeUnit.to`: `amount * factors[unit] / factors[to_unit]`.
Returns `none` when a unit is unknown (Python raises `ValueError`). -/
def TimeUnit.to (t : TimeUnit) (to_unit : String) : Option ℚ :=
  match conversion_factors t.unit, conversion_factors to_unit with
  | some f, some g => some (t.amount * f / g)
  | _, _ => none

/-- model.py `TimeValue`: a magnitude with a time unit. -/
structure TimeValue where
  value : ℚ
  units : TimeUnit
deriving DecidableEq, Repr

/-- model.py `TimeValue.to`: `value * units.to(time_unit.unit)`. -/
def TimeValue.to (tv : TimeValue) (u : TimeUnit) : Option ℚ :=
  (tv.units.to u.unit).map (fun c => tv.value * c)

/-- model.py `TimeRatioValue`: a per-time magnitude with a time unit. -/
structure TimeRatioValue where
  value : ℚ
  units : TimeUnit
deriving DecidableEq, Repr

/-- model.py `TimeRatioValue.to`: `value / units.to(time_unit.unit)`.
`none` also covers the zero denominator (Python `ZeroDivisionError`). -/
def TimeRatioValue.to (tv : TimeRatioValue) (u : TimeUnit) : Option ℚ :=
  match tv.units.to u.unit with
  | none => none
  | some c => if c = 0 then none else some (tv.value / c)

/-- model.py `Status` enumeration. -/
inductive Status where
  | UNSOLVED
  | OPTIMAL
  | INTEGER_FEASIBLE
  | INFEASIBLE
  | INTEGER_INFEASIBLE
  | OVERFULL
  | TRIVIAL
  | ABORTED
  | CBC_ERROR
  | UNKNOWN
deriving DecidableEq, Repr

/-- The statuses accepted by the analyzer and the solution composer:
`[Status.OPTIMAL, Status.INTEGER_FEASIBLE]` in the source. -/
def feasibleStatuses : List Status := [Status.OPTIMAL, Status.INTEGER_FEASIBLE]

/-- model.py `App`. -/
structure App where
  name : String
  max_resp_time : TimeValue
deriving DecidableEq, Repr

/-- model.py `Region`. -/
structure Region where
  name : String
deriving DecidableEq, Repr

/-- model.py `InstanceClass`. -/
structure InstanceClass where
  name : String
  price : TimeRatioValue
  region : Region
deriving DecidableEq, Repr

/-- model.py `Workload`: request counts, one per time slot. -/
structure Workload where
  values : List ℤ
  time_unit : TimeUnit
deriving DecidableEq, Repr

/-- model.py `Latency`. -/
structure Latency where
  value : TimeValue
deriving DecidableEq, Repr

/-- model.py `Performance`. -/
structure Performance where
  value : TimeRatioValue
  slo : TimeValue
deriving DecidableEq, Repr

/-- model.py `System`; the two dicts keep Python's insertion order. -/
structure System where
  apps : List App
  ics : List InstanceClass
  perfs : List ((App × InstanceClass) × Performance)
  latencies : List ((Region × Region) × Latency)
deriving DecidableEq, Repr

/-- model.py `Problem`. -/
structure Problem where
  system : System
  workloads : List ((App × Region) × Workload)
  max_cost : ℚ := -1
  max_avg_resp_time : TimeValue := { value := -1, units := { unit := "s" } }
deriving DecidableEq, Repr

/-- model.py `Problem.__check_all_workloads_same_units`: vacuously true on an
empty mapping, otherwise every workload unit equals the first one. -/
def Problem.check_same_units (p : Problem) : Bool :=
  match p.workloads.map (fun kv => kv.2) with
  | [] => true
  | w :: ws => ws.all (fun x => x.time_unit = w.time_unit)

/-- model.py `Problem.__check_all_workloads_same_len`: vacuously true on an
empty mapping, otherwise every workload length equals the first one. -/
def Problem.check_same_len (p : Problem) : Bool :=
  match p.workloads.map (fun kv => kv.2) with
  | [] => true
  | w :: ws => ws.all (fun x => x.values.length = w.values.length)

/-- model.py `Problem.__post_init__`: both validations pass. -/
def Problem.post_init_ok (p : Problem) : Bool :=
  p.check_same_units && p.check_same_len

/-- model.py `Problem.workload_len`: `list(self.workloads.values())[0]`
indexes the first workload, so it is `none` (Python `IndexError`) on an
empty mapping. -/
def Problem.workload_len (p : Problem) : Option ℕ :=
  ((p.workloads.map (fun kv => kv.2)).head?).map (fun w => w.values.length)

/-- model.py `Problem.time_slot_unit`: also indexes the first workload. -/
def Problem.time_slot_unit (p : Problem) : Option TimeUnit :=
  ((p.workloads.map (fun kv => kv.2)).head?).map (fun w => w.time_unit)

/-- The loop body shared by both loops of model.py `Problem.regions`:
`if region not in result: result.append(region)`. -/
def dedupStep (acc : List Region) (r : Region) : List Region :=
  if r ∈ acc then acc else acc ++ [r]

/-- model.py `Problem.regions`: first loop collects instance-class regions,
second loop collects workload source regions, skipping those already seen. -/
def Problem.regions (p : Problem) : List Region :=
  let r1 := p.system.ics.foldl (fun acc ic => dedupStep acc ic.region) []
  p.workloads.foldl (fun acc kv => dedupStep acc kv.1.2) r1

/-- First-seen deduplication, written from the spec's words: keep each
region the first time it appears, drop later occurrences. -/
def firstSeen : List Region → List Region
  | [] => []
  | x :: xs => x :: (firstSeen xs).filter (fun y => y ≠ x)

/-- model.py `TimeSlotAllocation`. -/
structure TimeSlotAllocation where
  ics : List ((App × InstanceClass) × ℚ)
  reqs : List ((App × Region × InstanceClass) × ℚ)
deriving DecidableEq, Repr

/-- model.py `Allocation`. -/
structure Allocation where
  time_slot_allocs : List TimeSlotAllocation
deriving DecidableEq, Repr

/-- model.py `SolvingStats`. -/
structure SolvingStats where
  frac_gap : Option ℚ
  max_seconds : Option ℚ
  lower_bound : Option ℚ
  creation_time : ℚ
  solving_time : ℚ
  status : Status
deriving DecidableEq, Repr

/-- model.py `Solution`. -/
structure Solution where
  problem : Problem
  alloc : Allocation
  solving_stats : SolvingStats
deriving DecidableEq, Repr

/-- Python dict assignment `d[k] = v`: overwrite in place when present,
append otherwise. -/
def aset {α : Type} [DecidableEq α] (d : List (α × ℚ)) (k : α) (v : ℚ) :
    List (α × ℚ) :=
  if (alookup d k).isSome then
    d.map (fun p => if p.1 = k then (p.1, v) else p)
  else d ++ [(k, v)]

/-- model.py `System.resp_time`: server slo plus network latency, in
seconds. -/
def System.resp_time (s : System) (a : App) (r : Region) (ic : InstanceClass) :
    Except AErr TimeValue := do
  let perf ← orThrow (alookup s.perfs (a, ic)) AErr.keyError
  let slo ← orThrow (perf.slo.to { unit := "s" }) AErr.unitError
  let lat ← orThrow (alookup s.latencies (r, ic.region)) AErr.keyError
  let latv ← orThrow (lat.value.to { unit := "s" }) AErr.unitError
  pure { value := slo + latv, units := { unit := "s" } }

/-- analysis.py `SolutionAnalyzer.cost`: raises on a non-feasible status,
then sums `num_vms * unit_price` over every slot and (app, ic) entry. -/
def SolutionAnalyzer.cost (sol : Solution) : Except AErr ℚ := do
  if sol.solving_stats.status ∈ feasibleStatuses then
    let wlen ← orThrow sol.problem.workload_len AErr.indexError
    (List.range wlen).foldlM (fun acc k => do
      let tsa ← orThrow sol.alloc.time_slot_allocs[k]? AErr.indexError
      tsa.ics.foldlM (fun acc2 kv => do
        let ic := kv.1.2
        let tsu ← orThrow sol.problem.time_slot_unit AErr.indexError
        let unit_price ← orThrow (ic.price.to tsu) AErr.unitError
        pure (acc2 + kv.2 * unit_price)) acc) (0 : ℚ)
  else Except.error AErr.notFeasible

/-- analysis.py `SolutionAnalyzer.avg_resp_time`: raises on a non-feasible
status; returns 0 s when no requests are routed. -/
def SolutionAnalyzer.avg_resp_time (sol : Solution) : Except AErr TimeValue := do
  if sol.solving_stats.status ∈ feasibleStatuses then
    let wlen ← orThrow sol.problem.workload_len AErr.indexError
    let tt ← (List.range wlen).foldlM (fun acc k => do
      let tsa ← orThrow sol.alloc.time_slot_allocs[k]? AErr.indexError
      tsa.reqs.foldlM (fun acc2 kv => do
        let rt ← sol.problem.system.resp_time kv.1.1 kv.1.2.1 kv.1.2.2
        let rts ← orThrow (rt.to { unit := "s" }) AErr.unitError
        pure (acc2.1 + kv.2 * rts, acc2.2 + kv.2)) acc) ((0 : ℚ), (0 : ℚ))
    if tt.2 = 0 then pure { value := 0, units := { unit := "s" } }
    else pure { value := tt.1 / tt.2, units := { unit := "s" } }
  else Except.error AErr.notFeasible

/-- The accumulation loop of analysis.py `deadline_miss_rate`: pairs
(total missed requests, total requests). -/
def dmr_totals (sol : Solution) : Except AErr (ℚ × ℚ) := do
  let wlen ← orThrow sol.problem.workload_len AErr.indexError
  (List.range wlen).foldlM (fun acc k => do
    let tsa ← orThrow sol.alloc.time_slot_allocs[k]? AErr.indexError
    tsa.reqs.foldlM (fun acc2 kv => do
      let a := kv.1.1
      let rt ← sol.problem.system.resp_time a kv.1.2.1 kv.1.2.2
      let rts ← orThrow (rt.to { unit := "s" }) AErr.unitError
      let mrs ← orThrow (a.max_resp_time.to { unit := "s" }) AErr.unitError
      let missed := if rts > mrs then acc2.1 + kv.2 else acc2.1
      pure (missed, acc2.2 + kv.2)) acc) ((0 : ℚ), (0 : ℚ))

/-- analysis.py `SolutionAnalyzer.deadline_miss_rate`: raises on a
non-feasible status; the final division `total_missed / total` is not
guarded, so a zero total is a `ZeroDivisionError`. -/
def SolutionAnalyzer.deadline_miss_rate (sol : Solution) : Except AErr ℚ := do
  if sol.solving_stats.status ∈ feasibleStatuses then
    let mt ← dmr_totals sol
    if mt.2 = 0 then Except.error AErr.zeroDiv
    else pure (mt.1 / mt.2)
  else Except.error AErr.notFeasible

/-- analysis.py `SolutionAnalyzer.total_reqs_per_app`: no status check. -/
def SolutionAnalyzer.total_reqs_per_app (sol : Solution) :
    Except AErr (List (App × ℚ)) := do
  let wlen ← orThrow sol.problem.workload_len AErr.indexError
  (List.range wlen).foldlM (fun acc k => do
    let tsa ← orThrow sol.alloc.time_slot_allocs[k]? AErr.indexError
    pure (tsa.reqs.foldl (fun acc2 kv => addTo acc2 kv.1.1 kv.2) acc)) []

/-- analysis.py `SolutionAnalyzer.total_missed_reqs_per_app`: no status
check; entries with zero requests are skipped before the app is inserted. -/
def SolutionAnalyzer.total_missed_reqs_per_app (sol : Solution) :
    Except AErr (List (App × ℚ)) := do
  let wlen ← orThrow sol.problem.workload_len AErr.indexError
  (List.range wlen).foldlM (fun acc k => do
    let tsa ← orThrow sol.alloc.time_slot_allocs[k]? AErr.indexError
    tsa.reqs.foldlM (fun acc2 kv => do
      if kv.2 = 0 then pure acc2
      else do
        let a := kv.1.1
        let acc3 := if (alookup acc2 a).isSome then acc2 else acc2 ++ [(a, 0)]
        let rt ← sol.problem.system.resp_time a kv.1.2.1 kv.1.2.2
        let rts ← orThrow (rt.to { unit := "s" }) AErr.unitError
        let mrs ← orThrow (a.max_resp_time.to { unit := "s" }) AErr.unitError
        if rts > mrs then pure (addTo acc3 a kv.2) else pure acc3) acc) []

/-- analysis.py `SolutionAnalyzer.miss_rate_per_app`: no status check;
apps absent from the missed-request dict get rate 0. -/
def SolutionAnalyzer.miss_rate_per_app (sol : Solution) :
    Except AErr (List (App × ℚ)) := do
  let miss ← SolutionAnalyzer.total_missed_reqs_per_app sol
  let tot ← SolutionAnalyzer.total_reqs_per_app sol
  sol.problem.system.apps.foldlM (fun acc a => do
    match alookup miss a with
    | some m => do
        let t ← orThrow (alookup tot a) AErr.keyError
        if t = 0 then Except.error AErr.zeroDiv
        else pure (aset acc a (m / t))
    | none => pure (aset acc a 0)) []

/-- The numeric values the MILP backend assigned to the X and Y variables,
abstracted as total maps (edarop.py stores them in `self.x` / `self.y`
after `lp_problem.solve`). -/
structure SolverValues where
  xval : App × InstanceClass × ℕ → ℚ
  yval : App × Region × InstanceClass × ℕ → ℚ

/-- The epsilon of edarop.py `_get_valid_reqs`. -/
def yEps : ℚ := 1 / 10000000

/-- edarop.py `EdaropAllocator._get_valid_reqs`: near-zero values round to
0, positive values pass through, other negatives raise (`ValueError` in
the source, `InvalidSolverValue` in the spec). -/
def EdaropAllocator.get_valid_reqs (reqs : ℚ) : Except AErr ℚ :=
  if |reqs| < yEps then Except.ok 0
  else if reqs > 0 then Except.ok reqs
  else Except.error AErr.invalidSolverValue

/-- edarop.py `EdaropAllocator._get_alloc`: decode one time slot, visiting
apps, instance classes with a Performance entry, and regions with a
Latency entry to the instance region. -/
def EdaropAllocator.get_alloc (p : Problem) (sv : SolverValues)
    (time_slot : ℕ) : Except AErr TimeSlotAllocation := do
  let res ← p.system.apps.foldlM (fun acc a =>
    p.system.ics.foldlM (fun acc2 i => do
      if (alookup p.system.perfs (a, i)).isSome then
        let acc3 := (acc2.1 ++ [((a, i), sv.xval (a, i, time_slot))], acc2.2)
        p.regions.foldlM (fun acc4 r => do
          if (alookup p.system.latencies (r, i.region)).isSome then
            let v ← EdaropAllocator.get_valid_reqs (sv.yval (a, r, i, time_slot))
            pure (acc4.1, acc4.2 ++ [((a, r, i), v)])
          else pure acc4) acc3
      else pure acc2) acc)
    (([], []) : List ((App × InstanceClass) × ℚ) ×
                List ((App × Region × InstanceClass) × ℚ))
  pure { ics := res.1, reqs := res.2 }

/-- edarop.py `EdaropAllocator._compose_solution`: an empty allocation for
a non-feasible status, otherwise one decoded slot per workload entry. -/
def EdaropAllocator.compose_solution (p : Problem) (sv : SolverValues)
    (solving_stats : SolvingStats) : Except AErr Solution := do
  if solving_stats.status ∈ feasibleStatuses then
    let wlen ← orThrow p.workload_len AErr.indexError
    let allocs ← (List.range wlen).mapM (EdaropAllocator.get_alloc p sv)
    pure { problem := p, alloc := { time_slot_allocs := allocs },
           solving_stats := solving_stats }
  else
    pure { problem := p, alloc := { time_slot_allocs := [] },
           solving_stats := solving_stats }

/-- edarop.py `EdaropCRAllocator.solve`: the first (cost) stage result is
given as `sol_c`; the second (response) stage, an external MILP solve, is
abstracted as `solve_r`, a function of the optimal cost extracted by
`SolutionAnalyzer.cost`. -/
def EdaropCRAllocator.solve (sol_c : Solution) (solve_r : ℚ → Solution) :
    Except AErr Solution := do
  let optimal_cost ← SolutionAnalyzer.cost sol_c
  let sol_r := solve_r optimal_cost
  let stats_r := sol_r.solving_stats
  pure { problem := sol_r.problem, alloc := sol_r.alloc,
         solving_stats := { stats_r with
            creation_time := stats_r.creation_time +
              sol_c.solving_stats.creation_time,
            solving_time := stats_r.solving_time +
              sol_c.solving_stats.solving_time } }

/-- edarop.py `EdaropRCAllocator.solve`: the first (response) stage result
is given as `sol_r`; the second (cost) stage, an external MILP solve, is
abstracted as `solve_c`, a function of the optimal average response time
extracted by `SolutionAnalyzer.avg_resp_time`. -/
def EdaropRCAllocator.solve (sol_r : Solution) (solve_c : TimeValue → Solution) :
    Except AErr Solution := do
  let optimal_resp_time ← SolutionAnalyzer.avg_resp_time sol_r
  let sol_c := solve_c optimal_resp_time
  let stats_c := sol_c.solving_stats
  pure { problem := sol_c.problem, alloc := sol_c.alloc,
         solving_stats := { stats_c with
            creation_time := sol_r.solving_stats.creation_time +
              stats_c.creation_time,
            solving_time := sol_r.solving_stats.solving_time +
              stats_c.solving_time } }

/-- simple_allocator.py `ic.price / perfs[app, ic].value`: the cost per
request, as the ratio of the two rates normalized to per-second
magnitudes (the source divides the two quantity objects). -/
def InstanceChooser.cost_per_req (sys : System) (app : App)
    (ic : InstanceClass) : Except AErr ℚ := do
  let perf ← orThrow (alookup sys.perfs (app, ic)) AErr.keyError
  let ps ← orThrow (ic.price.to { unit := "s" }) AErr.unitError
  let rs ← orThrow (perf.value.to { unit := "s" }) AErr.unitError
  if rs = 0 then Except.error AErr.zeroDiv else pure (ps / rs)

/-- The shared shape of `cheapest_ics` and `fastest_ics` in
simple_allocator.py: build the dict mapping each instance class to a
value, take the minimum of the dict values (Python `min` raises on an
empty dict), and keep the instance classes attaining it, in dict order. -/
def minValIcs (l : List InstanceClass)
    (f : InstanceClass → Except AErr ℚ) : Except AErr (List InstanceClass) := do
  let pairs ← l.mapM (fun x => do
    let q ← f x
    pure (x, q))
  match pairs with
  | [] => Except.error AErr.valueError
  | p0 :: ps =>
    let m := ps.foldl (fun b x => min b x.2) p0.2
    pure ((pairs.filter (fun x => x.2 = m)).map (fun x => x.1))

/-- simple_allocator.py `InstanceChooser.cheapest_ics`: the instance
classes whose cost per request attains the minimum, in catalog order; the
dict comprehension looks up the Performance entry of every catalog
instance class. -/
def InstanceChooser.cheapest_ics (sys : System) (app : App) :
    Except AErr (List InstanceClass) :=
  minValIcs sys.ics (fun ic => InstanceChooser.cost_per_req sys app ic)

/-- simple_allocator.py `InstanceChooser.response_time`: network latency
plus server slo, in seconds. -/
def InstanceChooser.response_time (sys : System) (src_reg : Region)
    (ic : InstanceClass) (app : App) : Except AErr ℚ := do
  let lat ← orThrow (alookup sys.latencies (src_reg, ic.region)) AErr.keyError
  let perf ← orThrow (alookup sys.perfs (app, ic)) AErr.keyError
  let ls ← orThrow (lat.value.to { unit := "s" }) AErr.unitError
  let ss ← orThrow (perf.slo.to { unit := "s" }) AErr.unitError
  pure (ls + ss)

/-- simple_allocator.py `InstanceChooser.fastest_ics`: among the given
instance classes whose latency from `src_reg` is defined, those whose
response time attains the minimum; `min` of an empty dict raises. -/
def InstanceChooser.fastest_ics (sys : System) (src_reg : Region)
    (ics : List InstanceClass) (app : App) :
    Except AErr (List InstanceClass) :=
  minValIcs
    (ics.filter (fun ic => (alookup sys.latencies (src_reg, ic.region)).isSome))
    (fun ic => InstanceChooser.response_time sys src_reg ic app)

/-- The per-second magnitude of an instance price, used by the `min` key
of simple_allocator.py `InstanceChooser.smallest_ic`. -/
def price_per_s (ic : InstanceClass) : Except AErr ℚ :=
  orThrow (ic.price.to { unit := "s" }) AErr.unitError

/-- simple_allocator.py `InstanceChooser.smallest_ic`:
`min(ics, key=lambda ic: ic.price)`, keeping the first minimum. -/
def InstanceChooser.smallest_ic (ics : List InstanceClass) :
    Except AErr InstanceClass := do
  let pairs ← ics.mapM (fun ic => do
    let q ← price_per_s ic
    pure (ic, q))
  match pairs with
  | [] => Except.error AErr.valueError
  | p0 :: ps => pure ((ps.foldl (fun b x => if x.2 < b.2 then x else b) p0).1)

/-- simple_allocator.py `InstanceChooser.smallest_fastest_cheapest_ic`. -/
def InstanceChooser.smallest_fastest_cheapest_ic (sys : System) (app : App)
    (src_reg : Region) : Except AErr InstanceClass := do
  let cheapest ← InstanceChooser.cheapest_ics sys app
  let fastest ← InstanceChooser.fastest_ics sys src_reg cheapest app
  InstanceChooser.smallest_ic fastest

/-- The loop body of simple_allocator.py `compute_wl_ic_app` for one
(app, region) pair: skip pairs without a workload entry, otherwise read
the slot value, run the chooser, and add the value into both dicts. -/
def wlStepM (p : Problem) (time_slot : ℕ)
    (acc : List ((App × InstanceClass) × ℚ) ×
           List ((App × Region × InstanceClass) × ℚ))
    (pr : App × Region) :
    Except AErr (List ((App × InstanceClass) × ℚ) ×
                 List ((App × Region × InstanceClass) × ℚ)) :=
  match alookup p.workloads pr with
  | none => pure acc
  | some wl => do
    let wlv ← orThrow wl.values[time_slot]? AErr.indexError
    let ic ← InstanceChooser.smallest_fastest_cheapest_ic p.system pr.1 pr.2
    pure (addTo acc.1 (pr.1, ic) (wlv : ℚ),
          addTo acc.2 (pr.1, pr.2, ic) (wlv : ℚ))

/-- simple_allocator.py `SimpleCostAllocator.compute_wl_ic_app`: for every
app and every region with a workload entry (in `Problem.regions` order),
pick the instance class and accumulate the slot workload into the two
dicts. -/
def SimpleCostAllocator.compute_wl_ic_app (p : Problem) (time_slot : ℕ) :
    Except AErr (List ((App × InstanceClass) × ℚ) ×
                 List ((App × Region × InstanceClass) × ℚ)) :=
  p.system.apps.foldlM (fun acc a =>
    (p.regions).foldlM (fun acc2 reg => wlStepM p time_slot acc2 (a, reg)) acc)
    ([], [])

/-- The loop body of simple_allocator.py `compute_alloc_time_slot` for one
(app, ic) entry of the workload dict: look up the performance, convert it
to the time-slot unit, and record the ceiling for positive workloads. -/
def icsStep (p : Problem) (tsu : TimeUnit)
    (acc : List ((App × InstanceClass) × ℚ))
    (kv : (App × InstanceClass) × ℚ) :
    Except AErr (List ((App × InstanceClass) × ℚ)) := do
  let perf ← orThrow (alookup p.system.perfs kv.1) AErr.keyError
  let perf_ts ← orThrow (perf.value.to tsu) AErr.unitError
  if kv.2 > 0 then
    if perf_ts = 0 then Except.error AErr.zeroDiv
    else pure (acc ++ [(kv.1, ((⌈kv.2 / perf_ts⌉ : ℤ) : ℚ))])
  else pure acc

/-- simple_allocator.py `SimpleCostAllocator.compute_alloc_time_slot`: VM
counts are the ceiling of the aggregated workload over the performance per
time slot, only for pairs with positive workload; the request dict is
passed through. -/
def SimpleCostAllocator.compute_alloc_time_slot (p : Problem)
    (time_slot : ℕ) : Except AErr TimeSlotAllocation := do
  let wr ← SimpleCostAllocator.compute_wl_ic_app p time_slot
  let tsu ← orThrow p.time_slot_unit AErr.indexError
  let ics ← wr.1.foldlM (icsStep p tsu) []
  pure { ics := ics, reqs := wr.2 }

/-! Concrete fixtures used by witnesses and counterexamples, built after
the shape of the test data in tests/conftest.py. -/

/-- The seconds unit. -/
def tuS : TimeUnit := { unit := "s" }

/-- The hours unit. -/
def tuH : TimeUnit := { unit := "h" }

/-- A cloud region. -/
def regIreland : Region := { name := "Ireland" }

/-- An edge region. -/
def regDublin : Region := { name := "Dublin" }

/-- An app with a 1 s deadline (integer magnitudes keep the fixture
kernel-evaluable). -/
def app0 : App := { name := "a0", max_resp_time := { value := 1, units := tuS } }

/-- An instance class priced 1 usd/h in Ireland. -/
def ic0 : InstanceClass :=
  { name := "m5", price := { value := 1, units := tuH }, region := regIreland }

/-- A performance of 5 req/h with a 2 s slo. -/
def perf0 : Performance :=
  { value := { value := 5, units := tuH }, slo := { value := 2, units := tuS } }

/-- A 3 s latency. -/
def lat0 : Latency := { value := { value := 3, units := tuS } }

/-- A one-app one-instance system. -/
def sys0 : System :=
  { apps := [app0], ics := [ic0],
    perfs := [((app0, ic0), perf0)],
    latencies := [((regDublin, regIreland), lat0)] }

/-- A one-slot workload of zero requests. -/
def wl0 : Workload := { values := [0], time_unit := tuH }

/-- A problem with a single zero workload entry. -/
def prob0 : Problem := { system := sys0, workloads := [((app0, regDublin), wl0)] }

/-- A problem with an empty workloads mapping. -/
def probEmpty : Problem := { system := sys0, workloads := [] }

/-- Stats with a given status and all other fields trivial. -/
def statsWith (st : Status) : SolvingStats :=
  { frac_gap := none, max_seconds := none, lower_bound := none,
    creation_time := 0, solving_time := 0, status := st }

/-- An infeasible solution over `prob0` with one (empty) slot allocation. -/
def solInf : Solution :=
  { problem := prob0,
    alloc := { time_slot_allocs := [{ ics := [], reqs := [] }] },
    solving_stats := statsWith Status.INFEASIBLE }

/-- An optimal solution over `prob0` that routes zero requests. -/
def solZeroReqs : Solution :=
  { problem := prob0,
    alloc := { time_slot_allocs := [{ ics := [], reqs := [] }] },
    solving_stats := statsWith Status.OPTIMAL }

/-- Solver values that are all zero. -/
def svZero : SolverValues := { xval := fun _ => 0, yval := fun _ => 0 }

/-! Evaluation lemmas for the conversion-factor table, used to run the
embedded functions on the concrete fixtures. -/

/-- Factor of the seconds unit. -/
@[simp] theorem cf_s : conversion_factors "s" = some 1 := by decide

/-- Factor of the hours unit. -/
@[simp] theorem cf_h : conversion_factors "h" = some 3600 := by decide

/-! Claim theorems. -/

/-- Positivity of every factor in the conversion table. -/
theorem conversion_factors_pos (u : String) (q : ℚ)
    (h : conversion_factors u = some q) : 0 < q := by
  unfold conversion_factors at h
  split_ifs at h <;> simp_all <;> norm_num [← h]

/-- C9: the unit round trip `TimeUnit(u0, a).to(u1)` followed by
`TimeUnit(u1, result).to(u0)` is the identity on the magnitude. -/
theorem time_unit_round_trip (u0 u1 : String) (a v : ℚ)
    (h : TimeUnit.to { unit := u0, amount := a } u1 = some v) :
    TimeUnit.to { unit := u1, amount := v } u0 = some a := by
  unfold TimeUnit.to at h ⊢
  cases hf : conversion_factors u0 with
  | none => rw [hf] at h; simp at h
  | some f =>
    cases hg : conversion_factors u1 with
    | none => rw [hf, hg] at h; simp at h
    | some g =>
      rw [hf, hg] at h
      simp only [Option.some.injEq] at h ⊢
      have hfp := conversion_factors_pos u0 f hf
      have hgp := conversion_factors_pos u1 g hg
      rw [← h]
      field_simp

/-- C9 witness: two hours are 7200 seconds, and back. -/
theorem time_unit_round_trip_witness :
    TimeUnit.to { unit := "s", amount := 7200 } "h" = some 2 :=
  time_unit_round_trip "h" "s" 2 7200
    (by simp only [TimeUnit.to, cf_h, cf_s]; norm_num)

/-- C10: a Problem with an empty workloads mapping passes both
constructor validations, but `workload_len` and `time_slot_unit` fail
(indexing the first workload); they succeed exactly when the mapping is
non-empty. -/
theorem problem_empty_workloads (p : Problem) :
    (p.workloads = [] →
       p.post_init_ok = true ∧ p.workload_len = none ∧ p.time_slot_unit = none)
    ∧ (p.workloads ≠ [] →
       (p.workload_len).isSome ∧ (p.time_slot_unit).isSome) := by
  constructor
  · intro h
    simp [Problem.post_init_ok, Problem.check_same_units, Problem.check_same_len,
          Problem.workload_len, Problem.time_slot_unit, h]
  · intro h
    cases hw : p.workloads with
    | nil => exact absurd hw h
    | cons x xs =>
      simp [Problem.workload_len, Problem.time_slot_unit, hw]

/-- C10 witness: the empty-workloads problem at a concrete input. -/
theorem problem_empty_workloads_witness :
    probEmpty.post_init_ok = true ∧ probEmpty.workload_len = none ∧
      probEmpty.time_slot_unit = none :=
  (problem_empty_workloads probEmpty).1 rfl

/-- C2 (amended): on a solution whose status is not feasible, `cost`,
`avg_resp_time` and `deadline_miss_rate` fail with the not-feasible error;
the three per-app operations perform no status check (see the
counterexample). -/
theorem analyzer_feasibility_gate (sol : Solution)
    (h : sol.solving_stats.status ∉ feasibleStatuses) :
    SolutionAnalyzer.cost sol = Except.error AErr.notFeasible ∧
    SolutionAnalyzer.avg_resp_time sol = Except.error AErr.notFeasible ∧
    SolutionAnalyzer.deadline_miss_rate sol = Except.error AErr.notFeasible := by
  refine ⟨?_, ?_, ?_⟩
  · unfold SolutionAnalyzer.cost
    rw [if_neg h]
  · unfold SolutionAnalyzer.avg_resp_time
    rw [if_neg h]
  · unfold SolutionAnalyzer.deadline_miss_rate
    rw [if_neg h]

/-- C2 witness: the gate at a concrete infeasible solution. -/
theorem analyzer_feasibility_gate_witness :
    SolutionAnalyzer.cost solInf = Except.error AErr.notFeasible ∧
    SolutionAnalyzer.avg_resp_time solInf = Except.error AErr.notFeasible ∧
    SolutionAnalyzer.deadline_miss_rate solInf = Except.error AErr.notFeasible :=
  analyzer_feasibility_gate solInf (by decide)

/-- C2 counterexample: `total_reqs_per_app` returns a value (the empty
dict) on a solution whose status is INFEASIBLE, so not every analyzer
operation fails on a non-feasible solution. -/
theorem analyzer_gate_incomplete :
    solInf.solving_stats.status ∉ feasibleStatuses ∧
    SolutionAnalyzer.total_reqs_per_app solInf = Except.ok [] ∧
    SolutionAnalyzer.total_missed_reqs_per_app solInf = Except.ok [] ∧
    SolutionAnalyzer.miss_rate_per_app solInf = Except.ok [(app0, 0)] := by
  decide

/-- C3 (amended): when the first stage of either two-stage allocator
(the cost stage of C-then-R, or the response stage of R-then-C) ends with
a non-feasible status, the composed solve propagates the analyzer's
not-feasible error (raised while extracting cost and avg_resp_time of the
first-stage solution, respectively) instead of returning a Solution. -/
theorem cr_solve_errors_on_infeasible_first_stage (sol1 : Solution)
    (solve_r : ℚ → Solution) (solve_c : TimeValue → Solution)
    (h : sol1.solving_stats.status ∉ feasibleStatuses) :
    EdaropCRAllocator.solve sol1 solve_r = Except.error AErr.notFeasible ∧
    EdaropRCAllocator.solve sol1 solve_c = Except.error AErr.notFeasible := by
  constructor
  · have hc : SolutionAnalyzer.cost sol1 = Except.error AErr.notFeasible := by
      unfold SolutionAnalyzer.cost
      rw [if_neg h]
    unfold EdaropCRAllocator.solve
    rw [hc]
    rfl
  · have hr : SolutionAnalyzer.avg_resp_time sol1 =
        Except.error AErr.notFeasible := by
      unfold SolutionAnalyzer.avg_resp_time
      rw [if_neg h]
    unfold EdaropRCAllocator.solve
    rw [hr]
    rfl

/-- C3 witness: the propagation at a concrete infeasible first stage, for
both two-stage allocators. -/
theorem cr_solve_errors_witness :
    EdaropCRAllocator.solve solInf (fun _ => solZeroReqs) =
      Except.error AErr.notFeasible ∧
    EdaropRCAllocator.solve solInf (fun _ => solZeroReqs) =
      Except.error AErr.notFeasible :=
  cr_solve_errors_on_infeasible_first_stage solInf (fun _ => solZeroReqs)
    (fun _ => solZeroReqs) (by decide)

/-- C3 counterexample: with an INFEASIBLE first stage neither two-stage
composed solve returns a Solution, contradicting the claim that they
return normally with an empty Allocation. -/
theorem cr_solve_infeasible_raises :
    solInf.solving_stats.status = Status.INFEASIBLE ∧
    EdaropCRAllocator.solve solInf (fun _ => solZeroReqs) =
      Except.error AErr.notFeasible ∧
    EdaropRCAllocator.solve solInf (fun _ => solZeroReqs) =
      Except.error AErr.notFeasible := by
  decide

/-- C4: Y-variable decoding: values within the epsilon window round to 0,
positive values outside it pass through, and negative values outside it
fail with the invalid-solver-value error. -/
theorem get_valid_reqs_decoding (v : ℚ) :
    (|v| < yEps → EdaropAllocator.get_valid_reqs v = Except.ok 0)
    ∧ (yEps ≤ |v| → 0 < v → EdaropAllocator.get_valid_reqs v = Except.ok v)
    ∧ (yEps ≤ |v| → v < 0 →
        EdaropAllocator.get_valid_reqs v = Except.error AErr.invalidSolverValue) := by
  refine ⟨fun h => ?_, fun h1 h2 => ?_, fun h1 h2 => ?_⟩ <;>
    unfold EdaropAllocator.get_valid_reqs
  · rw [if_pos h]
  · rw [if_neg (not_lt.mpr h1), if_pos h2]
  · rw [if_neg (not_lt.mpr h1), if_neg (lt_asymm h2)]

/-- C4 witness: a clearly negative decoded value fails. -/
theorem get_valid_reqs_decoding_witness :
    EdaropAllocator.get_valid_reqs (-1) = Except.error AErr.invalidSolverValue :=
  (get_valid_reqs_decoding (-1)).2.2 (by norm_num [yEps]) (by norm_num)

/-- C7 (amended): `deadline_miss_rate` divides by the total number of
requests without a guard: on a feasible solution whose accumulation loop
yields zero total requests it fails with the division-by-zero error
instead of returning 0. -/
theorem deadline_miss_rate_unguarded (sol : Solution) (m : ℚ)
    (hst : sol.solving_stats.status ∈ feasibleStatuses)
    (h : dmr_totals sol = Except.ok (m, 0)) :
    SolutionAnalyzer.deadline_miss_rate sol = Except.error AErr.zeroDiv := by
  unfold SolutionAnalyzer.deadline_miss_rate
  rw [if_pos hst, h]
  rfl

/-- C7 witness: the failure at a concrete zero-request feasible solution. -/
theorem deadline_miss_rate_unguarded_witness :
    SolutionAnalyzer.deadline_miss_rate solZeroReqs = Except.error AErr.zeroDiv :=
  deadline_miss_rate_unguarded solZeroReqs 0 (by decide) (by decide)

/-- C7 counterexample: a feasible solution routing zero requests in total
on which `deadline_miss_rate` fails instead of returning 0. -/
theorem deadline_miss_rate_zero_fails :
    solZeroReqs.solving_stats.status ∈ feasibleStatuses ∧
    dmr_totals solZeroReqs = Except.ok (0, 0) ∧
    SolutionAnalyzer.deadline_miss_rate solZeroReqs ≠ Except.ok 0 := by
  decide

/-- Folding the dedup step from any accumulator appends exactly the
first-seen deduplication of the not-yet-seen elements. -/
theorem foldl_dedupStep_eq (l : List Region) :
    ∀ acc : List Region,
      l.foldl dedupStep acc = acc ++ (firstSeen l).filter (fun y => y ∉ acc) := by
  induction l with
  | nil => intro acc; simp [firstSeen]
  | cons x xs ih =>
    intro acc
    simp only [List.foldl_cons, firstSeen]
    by_cases hx : x ∈ acc
    · rw [show dedupStep acc x = acc from by simp [dedupStep, hx]]
      rw [ih acc]
      congr 1
      rw [List.filter_cons]
      have hxd : decide (x ∉ acc) = false := by simp [hx]
      rw [hxd]
      simp only [Bool.false_eq_true, if_false, List.filter_filter]
      have hfun : (fun y => decide (y ∉ acc) && decide (y ≠ x)) =
          (fun y => decide (y ∉ acc)) := by
        funext y
        by_cases hyx : y = x
        · subst hyx; simp [hx]
        · simp [hyx]
      rw [hfun]
    · rw [show dedupStep acc x = acc ++ [x] from by simp [dedupStep, hx]]
      rw [ih (acc ++ [x])]
      rw [List.filter_cons]
      have hxd : decide (x ∉ acc) = true := by simp [hx]
      rw [hxd]
      simp only [if_true, List.filter_filter, List.append_assoc,
        List.singleton_append]
      have hfun2 : (fun y => decide (y ∉ acc ++ [x])) =
          (fun a => decide (a ∉ acc) && decide (a ≠ x)) := by
        funext y
        rw [show (decide (y ∉ acc) && decide (y ≠ x)) =
            decide (y ∉ acc ∧ y ≠ x) from by simp]
        rw [decide_eq_decide]
        simp [List.mem_append, not_or, and_comm]
      rw [hfun2]

/-- `Problem.regions` equals the first-seen deduplication of the
instance-class regions followed by the workload source regions. -/
theorem regions_eq (p : Problem) :
    p.regions = firstSeen (p.system.ics.map (fun ic => ic.region) ++
      p.workloads.map (fun kv => kv.1.2)) := by
  unfold Problem.regions
  rw [← List.foldl_map (fun kv : (App × Region) × Workload => kv.1.2) dedupStep]
  rw [← List.foldl_map (fun ic : InstanceClass => ic.region) dedupStep]
  rw [← List.foldl_append]
  rw [foldl_dedupStep_eq]
  simp

/-- Membership in the first-seen deduplication is membership in the
original list. -/
theorem firstSeen_mem (r : Region) (l : List Region) :
    r ∈ firstSeen l ↔ r ∈ l := by
  induction l with
  | nil => simp [firstSeen]
  | cons x xs ih =>
    simp only [firstSeen, List.mem_cons, List.mem_filter, ih]
    by_cases hrx : r = x
    · simp [hrx]
    · simp [hrx]

/-- The first-seen deduplication has no duplicates. -/
theorem firstSeen_nodup (l : List Region) : (firstSeen l).Nodup := by
  induction l with
  | nil => simp [firstSeen]
  | cons x xs ih =>
    simp only [firstSeen]
    refine List.Nodup.cons ?_ (List.Nodup.filter _ ih)
    intro hmem
    rcases List.mem_filter.mp hmem with ⟨-, hne⟩
    simp at hne

/-- C8: `Problem.regions` lists, without duplicates and in first-seen
order, exactly the instance-class regions (in catalog order) followed by
the workload source regions (in insertion order) not already listed. -/
theorem regions_first_seen (p : Problem) :
    p.regions = firstSeen (p.system.ics.map (fun ic => ic.region) ++
        p.workloads.map (fun kv => kv.1.2))
    ∧ p.regions.Nodup
    ∧ ∀ r : Region, (r ∈ p.regions ↔
        r ∈ p.system.ics.map (fun ic => ic.region) ∨
        r ∈ p.workloads.map (fun kv => kv.1.2)) := by
  refine ⟨regions_eq p, ?_, ?_⟩
  · rw [regions_eq p]; exact firstSeen_nodup _
  · intro r
    rw [regions_eq p, firstSeen_mem]
    simp [List.mem_append]

/-- A successful `mapM'` over `Except` returns as many results as
inputs. -/
theorem exceptMapM_length {α β : Type} (f : α → Except AErr β) :
    ∀ (xs : List α) (ys : List β), List.mapM' f xs = Except.ok ys →
      ys.length = xs.length := by
  intro xs
  induction xs with
  | nil =>
    intro ys h
    simp only [List.mapM', pure, Except.pure, Except.ok.injEq] at h
    simp [← h]
  | cons x xs ih =>
    intro ys h
    simp only [List.mapM'] at h
    cases hfx : f x with
    | error e => rw [hfx] at h; simp [Bind.bind, Except.bind] at h
    | ok b =>
      rw [hfx] at h
      cases hm : List.mapM' f xs with
      | error e =>
        rw [hm] at h
        simp [Bind.bind, Except.bind] at h
      | ok bs =>
        rw [hm] at h
        simp only [Bind.bind, Except.bind, pure, Except.pure,
          Except.ok.injEq] at h
        rw [← h]
        simp [ih bs hm]

/-- C1: `_compose_solution` returns an empty allocation (with the observed
stats) for a non-feasible status, and an allocation with exactly
`workload_len` slot entries for a feasible one. -/
theorem compose_solution_populates_iff_feasible (p : Problem)
    (sv : SolverValues) (stats : SolvingStats) :
    (stats.status ∉ feasibleStatuses →
       EdaropAllocator.compose_solution p sv stats =
         Except.ok { problem := p, alloc := { time_slot_allocs := [] },
                     solving_stats := stats })
    ∧ (∀ sol, stats.status ∈ feasibleStatuses →
         EdaropAllocator.compose_solution p sv stats = Except.ok sol →
         p.workload_len = some sol.alloc.time_slot_allocs.length ∧
         sol.solving_stats = stats ∧ sol.problem = p) := by
  constructor
  · intro h
    unfold EdaropAllocator.compose_solution
    rw [if_neg h]
    rfl
  · intro sol hst h
    unfold EdaropAllocator.compose_solution at h
    rw [if_pos hst] at h
    cases hw : p.workload_len with
    | none =>
      rw [hw] at h
      simp [orThrow, Bind.bind, Except.bind] at h
    | some wlen =>
      rw [hw] at h
      simp only [orThrow, Bind.bind, Except.bind] at h
      cases hm : (List.range wlen).mapM (EdaropAllocator.get_alloc p sv) with
      | error e => rw [hm] at h; simp at h
      | ok allocs =>
        rw [hm] at h
        simp only [pure, Except.pure, Except.ok.injEq] at h
        have hlen : allocs.length = wlen := by
          have h2 := exceptMapM_length (EdaropAllocator.get_alloc p sv)
            (List.range wlen) allocs
          rw [List.mapM'_eq_mapM] at h2
          simpa using h2 hm
        rw [← h]
        simp [hlen]

/-- C1 witness: the empty allocation on a concrete infeasible solve. -/
theorem compose_solution_populates_iff_feasible_witness :
    EdaropAllocator.compose_solution prob0 svZero (statsWith Status.INFEASIBLE) =
      Except.ok { problem := prob0, alloc := { time_slot_allocs := [] },
                  solving_stats := statsWith Status.INFEASIBLE } :=
  (compose_solution_populates_iff_feasible prob0 svZero
    (statsWith Status.INFEASIBLE)).1 (by decide)

/-- An instance class without a Performance entry in `sysCE`. -/
def icB : InstanceClass :=
  { name := "icB", price := { value := 2, units := tuH }, region := regIreland }

/-- A system in which one catalog instance class (`icB`) has no
Performance entry for the app while another (`ic0`) does. -/
def sysCE : System :=
  { apps := [app0], ics := [icB, ic0],
    perfs := [((app0, ic0), perf0)],
    latencies := [((regDublin, regIreland), lat0)] }

/-- C5 counterexample: `cheapest_ics` looks up the Performance entry of
every catalog instance class, so the chooser fails with a key error on a
system where some IC lacks an entry, instead of choosing among the ICs
that have one (here `ic0`). -/
theorem chooser_missing_perf_fails :
    (alookup sysCE.perfs (app0, ic0)).isSome = true ∧
    (alookup sysCE.perfs (app0, icB)).isSome = false ∧
    InstanceChooser.smallest_fastest_cheapest_ic sysCE app0 regDublin =
      Except.error AErr.keyError ∧
    InstanceChooser.smallest_fastest_cheapest_ic sysCE app0 regDublin ≠
      Except.ok ic0 := by
  decide

/-- A successful paired `mapM` keeps the inputs in order, in pairs with
the value the effect produced for each. -/
theorem mapM_pair_ok {α : Type} (f : α → Except AErr ℚ) :
    ∀ (l : List α) (pairs : List (α × ℚ)),
      (l.mapM (fun x => do
          let q ← f x
          pure (x, q))) = Except.ok pairs →
      pairs.map Prod.fst = l ∧ ∀ p ∈ pairs, f p.1 = Except.ok p.2 := by
  intro l
  rw [← List.mapM'_eq_mapM]
  induction l with
  | nil =>
    intro pairs h
    simp only [List.mapM', pure, Except.pure, Except.ok.injEq] at h
    simp [← h]
  | cons x xs ih =>
    intro pairs h
    simp only [List.mapM'] at h
    cases hfx : f x with
    | error e =>
      rw [hfx] at h
      simp [Bind.bind, Except.bind] at h
    | ok q =>
      rw [hfx] at h
      cases hm : List.mapM' (fun x => do
          let q ← f x
          pure (x, q)) xs with
      | error e =>
        rw [hm] at h
        simp [Bind.bind, Except.bind, pure, Except.pure] at h
      | ok ps =>
        rw [hm] at h
        simp only [Bind.bind, Except.bind, pure, Except.pure,
          Except.ok.injEq] at h
        rcases ih ps hm with ⟨ih1, ih2⟩
        subst h
        refine ⟨by simp [ih1], ?_⟩
        intro p hp
        rcases List.mem_cons.mp hp with hp | hp
        · subst hp; exact hfx
        · exact ih2 p hp

/-- The fold of `min` over a list is a lower bound of the seed and every
element. -/
theorem foldl_min_le_mem (l : List ℚ) :
    ∀ (a : ℚ), ∀ x ∈ a :: l, l.foldl min a ≤ x := by
  induction l with
  | nil => simp
  | cons b bs ih =>
    intro a x hx
    have hmin : bs.foldl min (min a b) ≤ min a b :=
      ih (min a b) (min a b) (List.mem_cons_self _ _)
    rw [List.foldl_cons]
    rcases List.mem_cons.mp hx with hx1 | hx1
    · rw [hx1]
      exact le_trans hmin (min_le_left _ _)
    · rcases List.mem_cons.mp hx1 with hx2 | hx2
      · rw [hx2]
        exact le_trans hmin (min_le_right _ _)
      · exact ih (min a b) x (List.mem_cons_of_mem _ hx2)

/-- The fold of `min` over a list is the seed or one of the elements. -/
theorem foldl_min_mem (l : List ℚ) : ∀ a : ℚ, l.foldl min a ∈ a :: l := by
  induction l with
  | nil => simp
  | cons b bs ih =>
    intro a
    have h := ih (min a b)
    rcases List.mem_cons.mp h with h2 | h2
    · rcases min_choice a b with hc | hc <;> rw [List.foldl_cons]
      · rw [h2, hc]; exact List.mem_cons_self _ _
      · rw [h2, hc]
        exact List.mem_cons_of_mem _ (List.mem_cons_self _ _)
    · exact List.mem_cons_of_mem _ (List.mem_cons_of_mem _ h2)

/-- The first-minimum fold used by `smallest_ic` returns an element of the
list whose value component is a lower bound of all value components. -/
theorem foldl_firstmin_spec {α : Type} (ps : List (α × ℚ)) :
    ∀ p0 : α × ℚ,
      (ps.foldl (fun b x => if x.2 < b.2 then x else b) p0) ∈ p0 :: ps
      ∧ ∀ x ∈ p0 :: ps,
          (ps.foldl (fun b x => if x.2 < b.2 then x else b) p0).2 ≤ x.2 := by
  induction ps with
  | nil => intro p0; simp
  | cons y ys ih =>
    intro p0
    simp only [List.foldl_cons]
    by_cases hy : y.2 < p0.2
    · rw [if_pos hy]
      rcases ih y with ⟨ihm, ihle⟩
      refine ⟨?_, ?_⟩
      · rcases List.mem_cons.mp ihm with h2 | h2
        · rw [h2]; exact List.mem_cons_of_mem _ (List.mem_cons_self _ _)
        · exact List.mem_cons_of_mem _ (List.mem_cons_of_mem _ h2)
      · intro x hx
        rcases List.mem_cons.mp hx with hx2 | hx2
        · subst hx2
          exact le_of_lt (lt_of_le_of_lt
            (ihle y (List.mem_cons_self _ _)) hy)
        · exact ihle x hx2
    · rw [if_neg hy]
      rcases ih p0 with ⟨ihm, ihle⟩
      refine ⟨?_, ?_⟩
      · rcases List.mem_cons.mp ihm with h2 | h2
        · rw [h2]; exact List.mem_cons_self _ _
        · exact List.mem_cons_of_mem _ (List.mem_cons_of_mem _ h2)
      · intro x hx
        rcases List.mem_cons.mp hx with hx2 | hx2
        · rw [hx2]; exact ihle p0 (List.mem_cons_self _ _)
        · rcases List.mem_cons.mp hx2 with hx3 | hx3
          · rw [hx3]
            exact le_trans (ihle p0 (List.mem_cons_self _ _)) (not_lt.mp hy)
          · exact ihle x (List.mem_cons_of_mem _ hx3)

/-- Characterization of the dict-min-filter pattern: when it succeeds,
every input value computation succeeded, and the result is exactly the
inputs attaining the minimum value, a non-empty sublist of the input. -/
theorem minValIcs_char (l : List InstanceClass)
    (f : InstanceClass → Except AErr ℚ) (L : List InstanceClass)
    (h : minValIcs l f = Except.ok L) :
    (∀ j ∈ l, ∃ qj, f j = Except.ok qj)
    ∧ (∀ i ∈ L, i ∈ l)
    ∧ (∀ i ∈ L, ∃ q, f i = Except.ok q ∧
        ∀ j ∈ l, ∀ qj, f j = Except.ok qj → q ≤ qj)
    ∧ (∀ i ∈ l, ∀ qi, f i = Except.ok qi →
        (∀ j ∈ l, ∀ qj, f j = Except.ok qj → qi ≤ qj) → i ∈ L)
    ∧ L ≠ [] := by
  unfold minValIcs at h
  cases hpm : l.mapM (fun x => do
      let q ← f x
      pure (x, q)) with
  | error e => rw [hpm] at h; simp [Bind.bind, Except.bind] at h
  | ok pairs =>
    rw [hpm] at h
    simp only [Bind.bind, Except.bind] at h
    rcases mapM_pair_ok f l pairs hpm with ⟨hfst, hval⟩
    cases pairs with
    | nil => simp [pure, Except.pure] at h
    | cons p0 ps =>
      simp only [pure, Except.pure, Except.ok.injEq] at h
      set m := ps.foldl (fun b x => min b x.2) p0.2 with hm
      have hmfold : m = (ps.map (fun x => x.2)).foldl min p0.2 := by
        rw [hm, List.foldl_map]
      have hmle : ∀ x ∈ p0 :: ps, m ≤ x.2 := by
        intro x hx
        rw [hmfold]
        apply foldl_min_le_mem (ps.map (fun x => x.2)) p0.2
        rcases List.mem_cons.mp hx with hx1 | hx1
        · rw [hx1]; exact List.mem_cons_self _ _
        · exact List.mem_cons_of_mem _ (List.mem_map_of_mem _ hx1)
      have hmmem : ∃ z, z ∈ p0 :: ps ∧ z.2 = m := by
        have h2 := foldl_min_mem (ps.map (fun x => x.2)) p0.2
        rw [← hmfold] at h2
        rcases List.mem_cons.mp h2 with h3 | h3
        · exact ⟨p0, List.mem_cons_self _ _, h3.symm⟩
        · rcases List.mem_map.mp h3 with ⟨z, hz, hz2⟩
          exact ⟨z, List.mem_cons_of_mem _ hz, hz2⟩
      have hLmem : ∀ i : InstanceClass,
          (i ∈ L ↔ ∃ x, x ∈ p0 :: ps ∧ x.2 = m ∧ x.1 = i) := by
        intro i
        rw [← h]
        constructor
        · intro hi
          rcases List.mem_map.mp hi with ⟨x, hxf, hx1⟩
          rcases List.mem_filter.mp hxf with ⟨hxm, hxq⟩
          exact ⟨x, hxm, by simpa using hxq, hx1⟩
        · rintro ⟨x, hxm, hxq, hx1⟩
          exact List.mem_map.mpr ⟨x, List.mem_filter.mpr ⟨hxm, by simpa using hxq⟩, hx1⟩
      have hsucc : ∀ j ∈ l, ∃ qj, f j = Except.ok qj := by
        intro j hj
        rw [← hfst] at hj
        rcases List.mem_map.mp hj with ⟨y, hy, hy1⟩
        exact ⟨y.2, by rw [← hy1]; exact hval y hy⟩
      have hminok : ∀ j ∈ l, ∀ qj, f j = Except.ok qj → m ≤ qj := by
        intro j hj qj hqj
        rw [← hfst] at hj
        rcases List.mem_map.mp hj with ⟨y, hy, hy1⟩
        have := hval y hy
        rw [hy1, hqj] at this
        rcases Except.ok.inj this with h3
        rw [h3]
        exact hmle y hy
      refine ⟨hsucc, ?_, ?_, ?_, ?_⟩
      · intro i hi
        rcases (hLmem i).mp hi with ⟨x, hxm, -, hx1⟩
        rw [← hfst, ← hx1]
        exact List.mem_map_of_mem _ hxm
      · intro i hi
        rcases (hLmem i).mp hi with ⟨x, hxm, hxq, hx1⟩
        refine ⟨m, ?_, hminok⟩
        have := hval x hxm
        rw [hx1, hxq] at this
        exact this
      · intro i hi qi hqi hmin
        rw [← hfst] at hi
        rcases List.mem_map.mp hi with ⟨y, hy, hy1⟩
        have hyv := hval y hy
        rw [hy1, hqi] at hyv
        rcases Except.ok.inj hyv with h3
        rcases hmmem with ⟨z, hz, hz2⟩
        have hz1 : z.1 ∈ l := by
          rw [← hfst]; exact List.mem_map_of_mem _ hz
        have hzv := hval z hz
        rw [hz2] at hzv
        have h4 : qi ≤ m := hmin z.1 hz1 m hzv
        have h5 : m ≤ qi := by rw [h3]; exact hmle y hy
        refine (hLmem i).mpr ⟨y, hy, ?_, hy1⟩
        rw [← h3, le_antisymm h4 h5]
      · rcases hmmem with ⟨z, hz, hz2⟩
        intro hL
        have : z.1 ∈ L := (hLmem z.1).mpr ⟨z, hz, hz2, rfl⟩
        rw [hL] at this
        simp at this

/-- Characterization of `smallest_ic`: when it succeeds it returns a
member of the list whose price is a lower bound of all member prices. -/
theorem smallest_ic_char (l : List InstanceClass) (i : InstanceClass)
    (h : InstanceChooser.smallest_ic l = Except.ok i) :
    i ∈ l ∧ (∀ j ∈ l, ∃ pj, price_per_s j = Except.ok pj)
    ∧ ∃ pr, price_per_s i = Except.ok pr ∧
        ∀ j ∈ l, ∀ pj, price_per_s j = Except.ok pj → pr ≤ pj := by
  unfold InstanceChooser.smallest_ic at h
  cases hpm : l.mapM (fun ic => do
      let q ← price_per_s ic
      pure (ic, q)) with
  | error e => rw [hpm] at h; simp [Bind.bind, Except.bind] at h
  | ok pairs =>
    rw [hpm] at h
    simp only [Bind.bind, Except.bind] at h
    rcases mapM_pair_ok price_per_s l pairs hpm with ⟨hfst, hval⟩
    cases pairs with
    | nil => simp [pure, Except.pure] at h
    | cons p0 ps =>
      simp only [pure, Except.pure, Except.ok.injEq] at h
      rcases foldl_firstmin_spec ps p0 with ⟨hmem, hle⟩
      set r := ps.foldl (fun b x => if x.2 < b.2 then x else b) p0 with hr
      have hsucc : ∀ j ∈ l, ∃ pj, price_per_s j = Except.ok pj := by
        intro j hj
        rw [← hfst] at hj
        rcases List.mem_map.mp hj with ⟨y, hy, hy1⟩
        exact ⟨y.2, by rw [← hy1]; exact hval y hy⟩
      refine ⟨?_, hsucc, r.2, ?_, ?_⟩
      · rw [← h, ← hfst]
        exact List.mem_map_of_mem _ hmem
      · rw [← h]
        exact hval r hmem
      · intro j hj pj hpj
        rw [← hfst] at hj
        rcases List.mem_map.mp hj with ⟨y, hy, hy1⟩
        have hyv := hval y hy
        rw [hy1, hpj] at hyv
        rcases Except.ok.inj hyv with h3
        rw [h3]
        exact hle y hy

/-- The first-minimum fold used by `smallest_ic` splits the list into a
prefix of strictly larger values, the result, and a suffix. -/
theorem foldl_firstmin_first {α : Type} (ps : List (α × ℚ)) :
    ∀ p0 : α × ℚ, ∃ l1 l2,
      p0 :: ps = l1 ++ (ps.foldl (fun b x => if x.2 < b.2 then x else b) p0) :: l2
      ∧ ∀ x ∈ l1, (ps.foldl (fun b x => if x.2 < b.2 then x else b) p0).2 < x.2 := by
  induction ps with
  | nil => intro p0; exact ⟨[], [], rfl, by simp⟩
  | cons y ys ih =>
    intro p0
    simp only [List.foldl_cons]
    by_cases hy : y.2 < p0.2
    · rw [if_pos hy]
      rcases ih y with ⟨l1, l2, hdec, hlt⟩
      rcases foldl_firstmin_spec ys y with ⟨-, hle⟩
      refine ⟨p0 :: l1, l2, by rw [List.cons_append, ← hdec], ?_⟩
      intro x hx
      rcases List.mem_cons.mp hx with hx1 | hx1
      · rw [hx1]
        exact lt_of_le_of_lt (hle y (List.mem_cons_self _ _)) hy
      · exact hlt x hx1
    · rw [if_neg hy]
      rcases ih p0 with ⟨l1, l2, hdec, hlt⟩
      cases l1 with
      | nil =>
        simp only [List.nil_append] at hdec
        rcases List.cons.inj hdec with ⟨h1, h2⟩
        refine ⟨[], y :: ys, ?_, by simp⟩
        rw [List.nil_append, ← h1]
      | cons z l1x =>
        simp only [List.cons_append] at hdec
        rcases List.cons.inj hdec with ⟨h1, h2⟩
        refine ⟨p0 :: y :: l1x, l2, ?_, ?_⟩
        · rw [List.cons_append, List.cons_append, ← h2]
        · intro x hx
          have hp0 : (ys.foldl (fun b x => if x.2 < b.2 then x else b) p0).2
              < p0.2 := by
            have h4 := hlt z (List.mem_cons_self _ _)
            rw [← h1] at h4
            exact h4
          rcases List.mem_cons.mp hx with hx1 | hx1
          · rw [hx1]; exact hp0
          · rcases List.mem_cons.mp hx1 with hx2 | hx2
            · rw [hx2]; exact lt_of_lt_of_le hp0 (not_lt.mp hy)
            · exact hlt x (List.mem_cons_of_mem _ hx2)

/-- Python's `min` keeps the FIRST element attaining the minimum:
`smallest_ic` splits its input into a strictly-pricier prefix, the chosen
instance class, and a suffix. -/
theorem smallest_ic_first (l : List InstanceClass) (i : InstanceClass)
    (h : InstanceChooser.smallest_ic l = Except.ok i) :
    ∃ l1 l2, l = l1 ++ i :: l2 ∧
      ∀ j ∈ l1, ∀ pr pj, price_per_s i = Except.ok pr →
        price_per_s j = Except.ok pj → pr < pj := by
  unfold InstanceChooser.smallest_ic at h
  cases hpm : l.mapM (fun ic => do
      let q ← price_per_s ic
      pure (ic, q)) with
  | error e => rw [hpm] at h; simp [Bind.bind, Except.bind] at h
  | ok pairs =>
    rw [hpm] at h
    simp only [Bind.bind, Except.bind] at h
    rcases mapM_pair_ok price_per_s l pairs hpm with ⟨hfst, hval⟩
    cases pairs with
    | nil => simp [pure, Except.pure] at h
    | cons p0 ps =>
      simp only [pure, Except.pure, Except.ok.injEq] at h
      rcases foldl_firstmin_first ps p0 with ⟨l1, l2, hdec, hlt⟩
      set r := ps.foldl (fun b x => if x.2 < b.2 then x else b) p0 with hr
      refine ⟨l1.map Prod.fst, l2.map Prod.fst, ?_, ?_⟩
      · rw [← hfst, hdec]
        simp [h]
      · intro j hj pr pj hpr hpj
        rcases List.mem_map.mp hj with ⟨y, hy, hy1⟩
        have hrmem : r ∈ p0 :: ps := (foldl_firstmin_spec ps p0).1
        have hrv := hval r hrmem
        rw [h, hpr] at hrv
        rcases Except.ok.inj hrv with h2
        have hymem : y ∈ p0 :: ps := by
          rw [hdec]; exact List.mem_append_left _ hy
        have hyv := hval y hymem
        rw [hy1, hpj] at hyv
        rcases Except.ok.inj hyv with h3
        rw [h2, h3]
        exact hlt y hy

/-- The dict-min-filter pattern returns exactly the input elements whose
value equals some rational, as a filter of the input list. -/
theorem minValIcs_filter (l : List InstanceClass)
    (f : InstanceClass → Except AErr ℚ) (L : List InstanceClass)
    (h : minValIcs l f = Except.ok L) :
    ∃ m, L = l.filter (fun i => decide (f i = Except.ok m)) := by
  unfold minValIcs at h
  cases hpm : l.mapM (fun x => do
      let q ← f x
      pure (x, q)) with
  | error e => rw [hpm] at h; simp [Bind.bind, Except.bind] at h
  | ok pairs =>
    rw [hpm] at h
    simp only [Bind.bind, Except.bind] at h
    rcases mapM_pair_ok f l pairs hpm with ⟨hfst, hval⟩
    cases pairs with
    | nil => simp [pure, Except.pure] at h
    | cons p0 ps =>
      simp only [pure, Except.pure, Except.ok.injEq] at h
      set m := ps.foldl (fun b x => min b x.2) p0.2 with hm
      refine ⟨m, ?_⟩
      have hfe : (p0 :: ps).filter (fun x => decide (x.2 = m)) =
          (p0 :: ps).filter (fun x => decide (f x.1 = Except.ok m)) := by
        apply List.filter_congr
        intro x hx
        simp [hval x hx]
      rw [← h, ← hfst, List.filter_map]
      rw [show ((fun i => decide (f i = Except.ok m)) ∘ Prod.fst) =
          (fun x : InstanceClass × ℚ => decide (f x.1 = Except.ok m)) from rfl]
      rw [← hfe]

/-- Splitting a list at a distinguished element of its filtrate: the part
of the list before that element filters to the part of the filtrate
before it. -/
theorem filter_split {α : Type} (q : α → Bool) :
    ∀ (l A B : List α) (b : α), l.filter q = A ++ b :: B →
      ∃ pre post, l = pre ++ b :: post ∧ pre.filter q = A := by
  intro l
  induction l with
  | nil => intro A B b h; simp at h
  | cons x xs ih =>
    intro A B b h
    by_cases hx : q x
    · rw [List.filter_cons_of_pos hx] at h
      cases A with
      | nil =>
        simp only [List.nil_append] at h
        rcases List.cons.inj h with ⟨h1, h2⟩
        exact ⟨[], xs, by rw [List.nil_append, ← h1], by simp⟩
      | cons a Ax =>
        simp only [List.cons_append] at h
        rcases List.cons.inj h with ⟨h1, h2⟩
        rcases ih Ax B b h2 with ⟨pre, post, hl, hf⟩
        refine ⟨x :: pre, post, by rw [List.cons_append, ← hl], ?_⟩
        rw [List.filter_cons_of_pos hx, hf, h1]
    · rw [List.filter_cons_of_neg hx] at h
      rcases ih A B b h with ⟨pre, post, hl, hf⟩
      exact ⟨x :: pre, post, by rw [List.cons_append, ← hl],
        by rw [List.filter_cons_of_neg hx, hf]⟩

/-- Spec vocabulary: `i` minimizes price divided by rate (cost per
request) among all instance classes. -/
def cheapestAmong (sys : System) (app : App) (i : InstanceClass) : Prop :=
  ∀ j ∈ sys.ics, ∀ q qj, InstanceChooser.cost_per_req sys app i = Except.ok q →
    InstanceChooser.cost_per_req sys app j = Except.ok qj → q ≤ qj

/-- Spec vocabulary: the latency from `src` to the region of `i` is
defined. -/
def latencyDefined (sys : System) (src : Region) (i : InstanceClass) : Prop :=
  (alookup sys.latencies (src, i.region)).isSome = true

/-- Spec vocabulary: `i` minimizes latency plus slo among the cheapest
instance classes whose latency from `src` is defined. -/
def fastestAmongCheapest (sys : System) (app : App) (src : Region)
    (i : InstanceClass) : Prop :=
  ∀ j ∈ sys.ics, cheapestAmong sys app j → latencyDefined sys src j →
    ∀ t tj, InstanceChooser.response_time sys src i app = Except.ok t →
      InstanceChooser.response_time sys src j app = Except.ok tj → t ≤ tj

/-- C5 (amended): provided every catalog instance class has a Performance
entry for the app (so that the unfiltered dict comprehension of
`cheapest_ics` succeeds), the chooser returns an instance class that is
cheapest per request among all instance classes, has a defined latency
from the source region, is fastest among the cheapest ones with a defined
latency, is lowest-priced among those, and is the FIRST such one in
catalog order: every candidate placed before it in the catalog is
strictly pricier. -/
theorem chooser_choice_spec (sys : System) (app : App) (src : Region)
    (ic : InstanceClass)
    (hp : ∀ j ∈ sys.ics, ∃ q,
      InstanceChooser.cost_per_req sys app j = Except.ok q)
    (h : InstanceChooser.smallest_fastest_cheapest_ic sys app src =
      Except.ok ic) :
    ic ∈ sys.ics
    ∧ cheapestAmong sys app ic
    ∧ latencyDefined sys src ic
    ∧ fastestAmongCheapest sys app src ic
    ∧ (∀ j ∈ sys.ics, cheapestAmong sys app j → latencyDefined sys src j →
        fastestAmongCheapest sys app src j →
        ∀ pr pj, price_per_s ic = Except.ok pr →
          price_per_s j = Except.ok pj → pr ≤ pj)
    ∧ ∃ pre post, sys.ics = pre ++ ic :: post ∧
        ∀ j ∈ pre, cheapestAmong sys app j → latencyDefined sys src j →
          fastestAmongCheapest sys app src j →
          ∀ pr pj, price_per_s ic = Except.ok pr →
            price_per_s j = Except.ok pj → pr < pj := by
  unfold InstanceChooser.smallest_fastest_cheapest_ic at h
  cases hch : InstanceChooser.cheapest_ics sys app with
  | error e => rw [hch] at h; simp [Bind.bind, Except.bind] at h
  | ok L =>
    rw [hch] at h
    simp only [Bind.bind, Except.bind] at h
    cases hfa : InstanceChooser.fastest_ics sys src L app with
    | error e => rw [hfa] at h; simp at h
    | ok M =>
      rw [hfa] at h
      rcases minValIcs_char sys.ics
        (fun j => InstanceChooser.cost_per_req sys app j) L hch with
        ⟨hc_succ, hc_sub, hc_min, hc_comp, -⟩
      rcases minValIcs_char
        (L.filter (fun j => (alookup sys.latencies (src, j.region)).isSome))
        (fun j => InstanceChooser.response_time sys src j app) M hfa with
        ⟨hf_succ, hf_sub, hf_min, hf_comp, -⟩
      rcases smallest_ic_char M ic h with ⟨hs_mem, -, pr0, hpr0, hs_min⟩
      have hLcheap : ∀ i ∈ L, cheapestAmong sys app i := by
        intro i hi j hj q qj hq hqj
        rcases hc_min i hi with ⟨q2, hq2, hq2min⟩
        rw [hq] at hq2
        rcases Except.ok.inj hq2 with h2
        rw [h2]
        exact hq2min j hj qj hqj
      have hcheapL : ∀ j ∈ sys.ics, cheapestAmong sys app j → j ∈ L := by
        intro j hj hcj
        rcases hp j hj with ⟨qj, hqj⟩
        exact hc_comp j hj qj hqj (fun k hk qk hqk => hcj k hk qj qk hqj hqk)
      have hicF : ic ∈ L.filter
          (fun j => (alookup sys.latencies (src, j.region)).isSome) :=
        hf_sub ic hs_mem
      rcases List.mem_filter.mp hicF with ⟨hicL, hicLat⟩
      have hFiff : ∀ j, j ∈ L.filter
          (fun j => (alookup sys.latencies (src, j.region)).isSome) ↔
          (j ∈ L ∧ latencyDefined sys src j) := by
        intro j
        rw [List.mem_filter]
        exact Iff.rfl
      have hjMgen : ∀ j ∈ sys.ics, cheapestAmong sys app j →
          latencyDefined sys src j → fastestAmongCheapest sys app src j →
          j ∈ M := by
        intro j hj hcj hlj hfj
        have hjF : j ∈ L.filter
            (fun j => (alookup sys.latencies (src, j.region)).isSome) :=
          (hFiff j).mpr ⟨hcheapL j hj hcj, hlj⟩
        rcases hf_succ j hjF with ⟨tj, htj⟩
        apply hf_comp j hjF tj htj
        intro k hk tk htk
        rcases (hFiff k).mp hk with ⟨hkL, hkLat⟩
        exact hfj k (hc_sub k hkL) (hLcheap k hkL) hkLat tj tk htj htk
      refine ⟨hc_sub ic hicL, hLcheap ic hicL, hicLat, ?_, ?_, ?_⟩
      · intro j hj hcj hlj t tj ht htj
        have hjF : j ∈ L.filter
            (fun j => (alookup sys.latencies (src, j.region)).isSome) :=
          (hFiff j).mpr ⟨hcheapL j hj hcj, hlj⟩
        rcases hf_min ic hs_mem with ⟨t2, ht2, ht2min⟩
        rw [ht] at ht2
        rcases Except.ok.inj ht2 with h2
        rw [h2]
        exact ht2min j hjF tj htj
      · intro j hj hcj hlj hfj pr pj hpr hpj
        have hjM : j ∈ M := hjMgen j hj hcj hlj hfj
        rw [hpr] at hpr0
        rcases Except.ok.inj hpr0 with h2
        rw [← h2] at hs_min
        exact hs_min j hjM pj hpj
      · rcases minValIcs_filter sys.ics
          (fun j => InstanceChooser.cost_per_req sys app j) L hch with
          ⟨m1, hL⟩
        rcases minValIcs_filter
          (L.filter (fun j => (alookup sys.latencies (src, j.region)).isSome))
          (fun j => InstanceChooser.response_time sys src j app) M hfa with
          ⟨m2, hMQ⟩
        rw [hL, List.filter_filter, List.filter_filter] at hMQ
        rcases smallest_ic_first M ic h with ⟨M1, M2x, hMdec, hM1lt⟩
        rw [hMQ] at hMdec
        rcases filter_split _ sys.ics M1 M2x ic hMdec with
          ⟨pre, post, hics, hpreQ⟩
        refine ⟨pre, post, hics, ?_⟩
        intro j hjpre hcj hlj hfj pr pj hpr hpj
        have hj : j ∈ sys.ics := by
          rw [hics]; exact List.mem_append_left _ hjpre
        have hjM : j ∈ M := hjMgen j hj hcj hlj hfj
        rw [hMQ] at hjM
        have hQj := (List.mem_filter.mp hjM).2
        have hjM1 : j ∈ M1 := by
          rw [← hpreQ]
          exact List.mem_filter.mpr ⟨hjpre, hQj⟩
        exact hM1lt j hjM1 pr pj hpr hpj

/-- Reduction of an `Except` bind on a success. -/
theorem except_bind_ok {α β : Type} (a : α) (f : α → Except AErr β) :
    (Except.ok a >>= f) = f a := rfl

/-- Concrete cost per request of `ic0` in `sys0`: (1 usd/h) / (5 req/h)
is 1/5 usd per request. -/
theorem cpr_sys0 : InstanceChooser.cost_per_req sys0 app0 ic0 =
    Except.ok (1/5) := by
  unfold InstanceChooser.cost_per_req
  rw [show alookup sys0.perfs (app0, ic0) = some perf0 from by decide]
  simp only [orThrow, except_bind_ok, ic0, perf0, TimeRatioValue.to,
    TimeUnit.to, tuH, cf_h, cf_s]
  norm_num [except_bind_ok, pure, Except.pure]

/-- Concrete cheapest set in `sys0`. -/
theorem cheapest_sys0 : InstanceChooser.cheapest_ics sys0 app0 =
    Except.ok [ic0] := by
  unfold InstanceChooser.cheapest_ics minValIcs
  rw [← List.mapM'_eq_mapM]
  rw [show sys0.ics = [ic0] from rfl]
  simp only [List.mapM', cpr_sys0, except_bind_ok, pure, Except.pure,
    except_bind_ok]
  simp [List.filter]

/-- Concrete response time of `ic0` from Dublin in `sys0`: 3 s latency
plus 2 s slo. -/
theorem rt_sys0 : InstanceChooser.response_time sys0 regDublin ic0 app0 =
    Except.ok 5 := by
  unfold InstanceChooser.response_time
  rw [show alookup sys0.latencies (regDublin, ic0.region) = some lat0 from
    by decide]
  rw [show alookup sys0.perfs (app0, ic0) = some perf0 from by decide]
  simp only [orThrow, except_bind_ok, lat0, perf0, TimeValue.to, TimeUnit.to,
    tuS, cf_s]
  norm_num [except_bind_ok, pure, Except.pure]

/-- Concrete fastest set in `sys0`. -/
theorem fastest_sys0 :
    InstanceChooser.fastest_ics sys0 regDublin [ic0] app0 =
    Except.ok [ic0] := by
  unfold InstanceChooser.fastest_ics minValIcs
  rw [show List.filter
      (fun ic => (alookup sys0.latencies (regDublin, ic.region)).isSome)
      [ic0] = [ic0] from by decide]
  rw [← List.mapM'_eq_mapM]
  simp only [List.mapM', rt_sys0, except_bind_ok, pure, Except.pure]
  simp [List.filter]

/-- Concrete smallest price of `ic0`. -/
theorem pps_ic0 : price_per_s ic0 = Except.ok (1/3600) := by
  unfold price_per_s
  simp only [ic0, TimeRatioValue.to, TimeUnit.to, tuH, cf_h, cf_s, orThrow]
  norm_num

/-- Concrete chooser run on `sys0`. -/
theorem chooser_sys0 :
    InstanceChooser.smallest_fastest_cheapest_ic sys0 app0 regDublin =
    Except.ok ic0 := by
  unfold InstanceChooser.smallest_fastest_cheapest_ic
  rw [cheapest_sys0, except_bind_ok]
  rw [fastest_sys0, except_bind_ok]
  unfold InstanceChooser.smallest_ic
  rw [← List.mapM'_eq_mapM]
  simp only [List.mapM', pps_ic0, except_bind_ok, pure, Except.pure]
  simp

/-- C5 witness: the chooser characterization at the concrete one-instance
system. -/
theorem chooser_choice_spec_witness :
    ic0 ∈ sys0.ics
    ∧ cheapestAmong sys0 app0 ic0
    ∧ latencyDefined sys0 regDublin ic0
    ∧ fastestAmongCheapest sys0 app0 regDublin ic0
    ∧ (∀ j ∈ sys0.ics, cheapestAmong sys0 app0 j →
        latencyDefined sys0 regDublin j →
        fastestAmongCheapest sys0 app0 regDublin j →
        ∀ pr pj, price_per_s ic0 = Except.ok pr →
          price_per_s j = Except.ok pj → pr ≤ pj)
    ∧ ∃ pre post, sys0.ics = pre ++ ic0 :: post ∧
        ∀ j ∈ pre, cheapestAmong sys0 app0 j →
          latencyDefined sys0 regDublin j →
          fastestAmongCheapest sys0 app0 regDublin j →
          ∀ pr pj, price_per_s ic0 = Except.ok pr →
            price_per_s j = Except.ok pj → pr < pj :=
  chooser_choice_spec sys0 app0 regDublin ic0
    (by
      intro j hj
      simp only [sys0] at hj
      rcases List.mem_singleton.mp hj with h1
      rw [h1]
      exact ⟨1/5, cpr_sys0⟩)
    chooser_sys0

/-! Spec vocabulary and pure-fold machinery for the greedy allocator. -/

/-- The chooser's result as an `Option`. -/
def chooseIcOpt (sys : System) (a : App) (r : Region) : Option InstanceClass :=
  (InstanceChooser.smallest_fastest_cheapest_ic sys a r).toOption

/-- Spec vocabulary: the workload of (app, region) in a slot, 0 when the
pair has no workload entry. -/
def slotWl (p : Problem) (ts : ℕ) (a : App) (r : Region) : ℚ :=
  match alookup p.workloads (a, r) with
  | none => 0
  | some w => ((w.values.getD ts 0 : ℤ) : ℚ)

/-- Spec vocabulary: the source regions whose workload the greedy
allocator routes to instance class `i` for app `a`. -/
def routedRegions (p : Problem) (a : App) (i : InstanceClass) : List Region :=
  p.regions.filter (fun r => (alookup p.workloads (a, r)).isSome &&
    decide (chooseIcOpt p.system a r = some i))

/-- Spec vocabulary: the workload aggregated over all source regions
routed to `i` for `a` in slot `ts`. -/
def routedSum (p : Problem) (ts : ℕ) (a : App) (i : InstanceClass) : ℚ :=
  ((routedRegions p a i).map (fun r => slotWl p ts a r)).sum

/-- The pure shadow of `wlStepM`: identical when every effect succeeds. -/
def wlStep (p : Problem) (ts : ℕ)
    (acc : List ((App × InstanceClass) × ℚ) ×
           List ((App × Region × InstanceClass) × ℚ))
    (pr : App × Region) :
    List ((App × InstanceClass) × ℚ) ×
    List ((App × Region × InstanceClass) × ℚ) :=
  match alookup p.workloads pr with
  | none => acc
  | some w =>
    match chooseIcOpt p.system pr.1 pr.2 with
    | none => acc
    | some i =>
      (addTo acc.1 (pr.1, i) ((w.values.getD ts 0 : ℤ) : ℚ),
       addTo acc.2 (pr.1, pr.2, i) ((w.values.getD ts 0 : ℤ) : ℚ))

/-- The effective contributions of a pair list: for each (app, region)
with a workload entry and a successful chooser run, the full request key
together with the slot workload. -/
def contribs (p : Problem) (ts : ℕ) (pl : List (App × Region)) :
    List ((App × Region × InstanceClass) × ℚ) :=
  pl.filterMap (fun pr =>
    match alookup p.workloads pr, chooseIcOpt p.system pr.1 pr.2 with
    | some w, some i => some ((pr.1, pr.2, i), ((w.values.getD ts 0 : ℤ) : ℚ))
    | _, _ => none)

/-- Lookup distributes over association-list append. -/
theorem alookup_append {α β : Type} [DecidableEq α] (l1 l2 : List (α × β))
    (k : α) :
    alookup (l1 ++ l2) k = ((alookup l1 k).rec (alookup l2 k) fun v => some v) := by
  induction l1 with
  | nil => simp [alookup]
  | cons x xs ih =>
    by_cases hx : x.1 = k
    · simp [alookup, hx]
    · simp [alookup, hx, ih]

/-- Looking up the touched key after `addTo`. -/
theorem alookup_addTo_self {α : Type} [DecidableEq α]
    (d : List (α × ℚ)) (k : α) (v : ℚ) :
    alookup (addTo d k v) k = some ((alookup d k).getD 0 + v) := by
  unfold addTo
  cases hd : alookup d k with
  | none =>
    simp only [hd, Option.isSome_none, Bool.false_eq_true, if_false]
    rw [alookup_append, hd]
    simp [alookup]
  | some c =>
    simp only [hd, Option.isSome_some, if_true]
    induction d with
    | nil => simp [alookup] at hd
    | cons x xs ih =>
      by_cases hx : x.1 = k
      · simp only [alookup, hx, if_pos] at hd
        simp [alookup, hx, ← hd]
      · simp only [alookup, hx, if_neg, ite_false] at hd
        simp [alookup, hx, ih hd]

/-- The in-place update of a key leaves other keys unchanged. -/
theorem alookup_map_update {α : Type} [DecidableEq α] (k k2 : α) (v : ℚ)
    (h : k2 ≠ k) (d : List (α × ℚ)) :
    alookup (d.map (fun p => if p.1 = k then (p.1, p.2 + v) else p)) k2 =
      alookup d k2 := by
  induction d with
  | nil => simp [alookup]
  | cons x xs ih =>
    simp only [List.map_cons]
    by_cases hx : x.1 = k
    · rw [if_pos hx]
      have hx2 : ¬ x.1 = k2 := by
        rw [hx]; exact fun hh => h (Eq.symm hh)
      simp [alookup, hx2, ih]
    · rw [if_neg hx]
      by_cases hx2 : x.1 = k2
      · simp [alookup, hx2]
      · simp [alookup, hx2, ih]

/-- Looking up an untouched key after `addTo`. -/
theorem alookup_addTo_other {α : Type} [DecidableEq α]
    (d : List (α × ℚ)) (k k2 : α) (v : ℚ) (h : k2 ≠ k) :
    alookup (addTo d k v) k2 = alookup d k2 := by
  unfold addTo
  by_cases hs : (alookup d k).isSome
  · rw [if_pos hs]
    exact alookup_map_update k k2 v h d
  · rw [if_neg hs]
    rw [alookup_append]
    cases hd2 : alookup d k2 with
    | none =>
      simp [alookup, show ¬ k = k2 from fun hh => h (Eq.symm hh)]
    | some c => simp

/-- Reduction of an `Except` bind on a failure. -/
theorem except_bind_err {α β : Type} (e : AErr) (f : α → Except AErr β) :
    ((Except.error e : Except AErr α) >>= f) = Except.error e := rfl

/-- Lookup after folding `addTo` over an item list: untouched when no item
has the key, otherwise the stored value plus the sum of the matching item
values. -/
theorem alookup_foldl_addTo {α ι : Type} [DecidableEq α]
    (key : ι → α) (val : ι → ℚ) (l : List ι) :
    ∀ (acc : List (α × ℚ)) (k : α),
      alookup (l.foldl (fun d x => addTo d (key x) (val x)) acc) k =
        if (l.filter (fun x => key x = k)).isEmpty then alookup acc k
        else some ((alookup acc k).getD 0 +
          ((l.filter (fun x => key x = k)).map val).sum) := by
  induction l with
  | nil => intro acc k; simp
  | cons x xs ih =>
    intro acc k
    rw [List.foldl_cons]
    rw [ih (addTo acc (key x) (val x)) k]
    by_cases hx : key x = k
    · rw [List.filter_cons_of_pos (by simp [hx])]
      rw [hx]
      by_cases hxs : (xs.filter (fun x => key x = k)).isEmpty
      · rw [if_pos hxs, if_neg (by simp), alookup_addTo_self]
        rw [List.isEmpty_iff.mp hxs]
        simp
      · rw [if_neg hxs, if_neg (by simp), alookup_addTo_self]
        simp [add_assoc]
    · rw [List.filter_cons_of_neg (by simp [hx])]
      rw [alookup_addTo_other acc (key x) k (val x)
        (fun hh => hx (Eq.symm hh))]

/-- The nested loops of `compute_wl_ic_app` equal one fold over the flat
list of (app, region) pairs. -/
theorem compute_wl_flat (p : Problem) (ts : ℕ) :
    ∀ (as : List App)
      (init : List ((App × InstanceClass) × ℚ) ×
              List ((App × Region × InstanceClass) × ℚ)),
      as.foldlM (fun acc a =>
          p.regions.foldlM (fun acc2 reg => wlStepM p ts acc2 (a, reg)) acc)
          init
        = (as.flatMap (fun a => p.regions.map (fun r => (a, r)))).foldlM
            (wlStepM p ts) init := by
  intro as
  induction as with
  | nil => intro init; simp
  | cons a as ih =>
    intro init
    rw [List.foldlM_cons, List.flatMap_cons, List.foldlM_append]
    simp only [List.foldlM_map]
    exact bind_congr fun s => ih s

/-- A successful monadic fold of the greedy loop body equals the pure
fold. -/
theorem foldlM_wlStep_pure (p : Problem) (ts : ℕ) :
    ∀ (pl : List (App × Region)) acc res,
      pl.foldlM (wlStepM p ts) acc = Except.ok res →
      res = pl.foldl (wlStep p ts) acc := by
  intro pl
  induction pl with
  | nil =>
    intro acc res h
    simp only [List.foldlM_nil, pure, Except.pure, Except.ok.injEq] at h
    simp [← h]
  | cons x xs ih =>
    intro acc res h
    rw [List.foldlM_cons] at h
    cases hs : wlStepM p ts acc x with
    | error e => rw [hs, except_bind_err] at h; simp at h
    | ok s =>
      rw [hs, except_bind_ok] at h
      rw [List.foldl_cons]
      have hstep : wlStep p ts acc x = s := by
        unfold wlStepM at hs
        unfold wlStep
        cases hw : alookup p.workloads x with
        | none =>
          simp only [hw, pure, Except.pure, Except.ok.injEq] at hs
          simp only [hw]
          exact hs
        | some w =>
          simp only [hw] at hs ⊢
          cases hv : w.values[ts]? with
          | none =>
            simp only [hv, orThrow, except_bind_err] at hs
            exact Except.noConfusion hs
          | some wlv =>
            simp only [hv, orThrow, except_bind_ok] at hs
            cases hc : InstanceChooser.smallest_fastest_cheapest_ic
                p.system x.1 x.2 with
            | error e =>
              simp only [hc, except_bind_err] at hs
              exact Except.noConfusion hs
            | ok i =>
              simp only [hc, except_bind_ok, pure, Except.pure,
                Except.ok.injEq] at hs
              simp only [show chooseIcOpt p.system x.1 x.2 = some i from by
                unfold chooseIcOpt; rw [hc]; rfl]
              simp only [show w.values.getD ts 0 = wlv from by
                rw [List.getD_eq_getElem?_getD, hv]; rfl]
              exact hs
      rw [hstep]
      exact ih s res h

/-- The pure greedy fold updates both dicts exactly by the `addTo` folds
of the effective contributions. -/
theorem foldl_wlStep_contribs (p : Problem) (ts : ℕ) :
    ∀ (pl : List (App × Region))
      (acc : List ((App × InstanceClass) × ℚ) ×
             List ((App × Region × InstanceClass) × ℚ)),
      pl.foldl (wlStep p ts) acc =
        ((contribs p ts pl).foldl
            (fun d it => addTo d (it.1.1, it.1.2.2) it.2) acc.1,
         (contribs p ts pl).foldl (fun d it => addTo d it.1 it.2) acc.2) := by
  intro pl
  induction pl with
  | nil => intro acc; simp [contribs]
  | cons x xs ih =>
    intro acc
    rw [List.foldl_cons]
    cases hw : alookup p.workloads x with
    | none =>
      have hcn : contribs p ts (x :: xs) = contribs p ts xs := by
        unfold contribs
        rw [List.filterMap_cons_none (by rw [hw])]
      have hstep : wlStep p ts acc x = acc := by simp [wlStep, hw]
      rw [hcn, hstep]
      exact ih acc
    | some w =>
      cases hc : chooseIcOpt p.system x.1 x.2 with
      | none =>
        have hcn : contribs p ts (x :: xs) = contribs p ts xs := by
          unfold contribs
          rw [List.filterMap_cons_none (by rw [hw, hc])]
        have hstep : wlStep p ts acc x = acc := by simp [wlStep, hw, hc]
        rw [hcn, hstep]
        exact ih acc
      | some i =>
        have hcs : contribs p ts (x :: xs) =
            ((x.1, x.2, i), ((w.values.getD ts 0 : ℤ) : ℚ)) ::
              contribs p ts xs := by
          unfold contribs
          rw [List.filterMap_cons_some (by rw [hw, hc])]
        have hstep : wlStep p ts acc x =
            (addTo acc.1 (x.1, i) ((w.values.getD ts 0 : ℤ) : ℚ),
             addTo acc.2 (x.1, x.2, i) ((w.values.getD ts 0 : ℤ) : ℚ)) := by
          simp [wlStep, hw, hc]
        rw [hcs, hstep, List.foldl_cons, List.foldl_cons]
        exact ih _

/-- Contributions distribute over list append. -/
theorem contribs_append (p : Problem) (ts : ℕ)
    (l1 l2 : List (App × Region)) :
    contribs p ts (l1 ++ l2) = contribs p ts l1 ++ contribs p ts l2 := by
  unfold contribs
  exact List.filterMap_append l1 l2 _

/-- Every contribution comes from a pair of the list, and carries that
pair in its key. -/
theorem contribs_mem (p : Problem) (ts : ℕ) (pl : List (App × Region))
    (it : (App × Region × InstanceClass) × ℚ) (h : it ∈ contribs p ts pl) :
    ∃ pr ∈ pl, it.1.1 = pr.1 ∧ it.1.2.1 = pr.2 := by
  unfold contribs at h
  rcases List.mem_filterMap.mp h with ⟨pr, hpr, hf⟩
  refine ⟨pr, hpr, ?_⟩
  cases hw : alookup p.workloads pr with
  | none => rw [hw] at hf; simp at hf
  | some w =>
    rw [hw] at hf
    cases hc : chooseIcOpt p.system pr.1 pr.2 with
    | none => rw [hc] at hf; simp at hf
    | some i =>
      rw [hc] at hf
      simp only [Option.some.injEq] at hf
      rw [← hf]
      exact ⟨rfl, rfl⟩

/-- Filtering the contributions of the whole app-region product with a
predicate that pins the app component reduces to the segment of that
app. -/
theorem contribs_product_filter (p : Problem) (ts : ℕ) (rs : List Region)
    (a : App) (q : ((App × Region × InstanceClass) × ℚ) → Bool)
    (hq : ∀ it, q it = true → it.1.1 = a) :
    ∀ as : List App, as.Nodup → a ∈ as →
      (contribs p ts (as.flatMap (fun a2 => rs.map (fun r => (a2, r))))).filter q
        = (contribs p ts (rs.map (fun r => (a, r)))).filter q := by
  intro as
  induction as with
  | nil => intro _ h; simp at h
  | cons a2 as ih =>
    intro hnd ha
    rw [List.flatMap_cons, contribs_append, List.filter_append]
    have hseg_ne : ∀ a3 : App, a3 ≠ a →
        (contribs p ts (rs.map (fun r => (a3, r)))).filter q = [] := by
      intro a3 hne
      rw [List.filter_eq_nil_iff]
      intro it hit
      intro hqt
      rcases contribs_mem p ts _ it hit with ⟨pr, hpr, hpr1, -⟩
      rcases List.mem_map.mp hpr with ⟨r, -, hr⟩
      have : it.1.1 = a3 := by rw [hpr1, ← hr]
      rw [hq it hqt] at this
      exact hne (Eq.symm this)
    rcases List.mem_cons.mp ha with h1 | h1
    · have hrest : (contribs p ts
          (as.flatMap (fun a3 => rs.map (fun r => (a3, r))))).filter q = [] := by
        rw [List.filter_eq_nil_iff]
        intro it hit hqt
        rcases contribs_mem p ts _ it hit with ⟨pr, hpr, hpr1, -⟩
        rcases List.mem_flatMap.mp hpr with ⟨a3, ha3, hpr2⟩
        rcases List.mem_map.mp hpr2 with ⟨r, -, hr⟩
        have h3 : it.1.1 = a3 := by rw [hpr1, ← hr]
        rw [hq it hqt] at h3
        rw [← h1, h3] at hnd
        exact (List.nodup_cons.mp hnd).1 ha3
      rw [hrest, List.append_nil, ← h1]
    · by_cases h2 : a2 = a
      · exfalso
        rw [h2] at hnd
        exact (List.nodup_cons.mp hnd).1 h1
      · rw [hseg_ne a2 h2, List.nil_append]
        exact ih (List.nodup_cons.mp hnd).2 h1

/-- The app segment of the contributions, filtered on an (app, ic) key,
is exactly the routed regions mapped to their slot workloads. -/
theorem contribs_segment_key (p : Problem) (ts : ℕ) (a : App)
    (i : InstanceClass) :
    ∀ rs : List Region,
      (contribs p ts (rs.map (fun r => (a, r)))).filter
          (fun it => (it.1.1, it.1.2.2) = (a, i))
        = (rs.filter (fun r => (alookup p.workloads (a, r)).isSome &&
            decide (chooseIcOpt p.system a r = some i))).map
            (fun r => ((a, r, i), slotWl p ts a r)) := by
  intro rs
  induction rs with
  | nil => simp [contribs]
  | cons r rs ih =>
    rw [List.map_cons]
    cases hw : alookup p.workloads (a, r) with
    | none =>
      have hcn : contribs p ts ((a, r) :: rs.map (fun r => (a, r))) =
          contribs p ts (rs.map (fun r => (a, r))) := by
        unfold contribs
        rw [List.filterMap_cons_none (by rw [hw])]
      rw [hcn, List.filter_cons_of_neg (by simp [hw]), ih]
    | some w =>
      cases hc : chooseIcOpt p.system a r with
      | none =>
        have hcn : contribs p ts ((a, r) :: rs.map (fun r => (a, r))) =
            contribs p ts (rs.map (fun r => (a, r))) := by
          unfold contribs
          rw [List.filterMap_cons_none (by rw [hw, hc])]
        rw [hcn, List.filter_cons_of_neg (by simp [hw, hc]), ih]
      | some j =>
        have hcs : contribs p ts ((a, r) :: rs.map (fun r => (a, r))) =
            ((a, r, j), ((w.values.getD ts 0 : ℤ) : ℚ)) ::
              contribs p ts (rs.map (fun r => (a, r))) := by
          unfold contribs
          rw [List.filterMap_cons_some (by rw [hw, hc])]
        rw [hcs]
        by_cases hj : j = i
        · rw [hj] at hc
          rw [hj]
          rw [List.filter_cons_of_pos (by simp)]
          rw [List.filter_cons_of_pos (by simp [hw, hc])]
          rw [List.map_cons, ih]
          have hslot : slotWl p ts a r = ((w.values.getD ts 0 : ℤ) : ℚ) := by
            unfold slotWl
            rw [hw]
          rw [hslot]
        · rw [List.filter_cons_of_neg (by simp [hj])]
          rw [List.filter_cons_of_neg (by simp [hw, hc, hj])]
          exact ih

/-- The app segment of the contributions, filtered on one full request
key, is the single contribution of that (app, region) pair. -/
theorem contribs_segment_req (p : Problem) (ts : ℕ) (a : App) :
    ∀ rs : List Region, rs.Nodup →
      ∀ r ∈ rs, ∀ (i : InstanceClass) (w : Workload),
        alookup p.workloads (a, r) = some w →
        chooseIcOpt p.system a r = some i →
        (contribs p ts (rs.map (fun r2 => (a, r2)))).filter
            (fun it => it.1 = (a, r, i))
          = [((a, r, i), ((w.values.getD ts 0 : ℤ) : ℚ))] := by
  intro rs
  induction rs with
  | nil => intro _ r hr; simp at hr
  | cons r2 rs ih =>
    intro hnd r hr i w hw hc
    rw [List.map_cons]
    rcases List.mem_cons.mp hr with h1 | h1
    · rw [← h1] at hnd ⊢
      have hcs : contribs p ts ((a, r) :: rs.map (fun r2 => (a, r2))) =
          ((a, r, i), ((w.values.getD ts 0 : ℤ) : ℚ)) ::
            contribs p ts (rs.map (fun r2 => (a, r2))) := by
        unfold contribs
        rw [List.filterMap_cons_some (by rw [hw, hc])]
      rw [hcs, List.filter_cons_of_pos (by simp)]
      have hrest : (contribs p ts (rs.map (fun r2 => (a, r2)))).filter
          (fun it => it.1 = (a, r, i)) = [] := by
        rw [List.filter_eq_nil_iff]
        intro it hit hqt
        rcases contribs_mem p ts _ it hit with ⟨pr, hpr, -, hpr2⟩
        rcases List.mem_map.mp hpr with ⟨r3, hr3, hpr3⟩
        simp only [decide_eq_true_eq] at hqt
        have : it.1.2.1 = r3 := by rw [hpr2, ← hpr3]
        rw [hqt] at this
        rw [← this] at hr3
        exact (List.nodup_cons.mp hnd).1 hr3
      rw [hrest]
    · have hr2ne : r2 ≠ r := by
        intro hh
        rw [hh] at hnd
        exact (List.nodup_cons.mp hnd).1 h1
      have htail : (contribs p ts ((a, r2) :: rs.map (fun r2 => (a, r2)))).filter
          (fun it => it.1 = (a, r, i)) =
          (contribs p ts (rs.map (fun r2 => (a, r2)))).filter
          (fun it => it.1 = (a, r, i)) := by
        cases hw2 : alookup p.workloads (a, r2) with
        | none =>
          unfold contribs
          rw [List.filterMap_cons_none (by rw [hw2])]
        | some w2 =>
          cases hc2 : chooseIcOpt p.system a r2 with
          | none =>
            unfold contribs
            rw [List.filterMap_cons_none (by rw [hw2, hc2])]
          | some j2 =>
            unfold contribs
            rw [List.filterMap_cons_some (by rw [hw2, hc2])]
            rw [List.filter_cons_of_neg (by simp [hr2ne])]
      rw [htail]
      exact ih (List.nodup_cons.mp hnd).2 r h1 i w hw hc

/-- A lookup misses exactly when the key is not among the stored keys. -/
theorem alookup_eq_none {α β : Type} [DecidableEq α] (d : List (α × β))
    (k : α) : alookup d k = none ↔ k ∉ d.map Prod.fst := by
  induction d with
  | nil => simp [alookup]
  | cons x xs ih =>
    by_cases hx : x.1 = k
    · simp [alookup, hx]
    · rw [show alookup (x :: xs) k = alookup xs k from by simp [alookup, hx]]
      rw [ih]
      simp only [List.map_cons, List.mem_cons]
      constructor
      · intro h1 h2
        rcases h2 with h2 | h2
        · exact hx (Eq.symm h2)
        · exact h1 h2
      · intro h1 h2
        exact h1 (Or.inr h2)

/-- `addTo` keeps the stored keys when the key is present, and appends it
otherwise. -/
theorem addTo_keys {α : Type} [DecidableEq α] (d : List (α × ℚ)) (k : α)
    (v : ℚ) :
    (addTo d k v).map Prod.fst =
      if (alookup d k).isSome then d.map Prod.fst
      else d.map Prod.fst ++ [k] := by
  unfold addTo
  by_cases hs : (alookup d k).isSome
  · rw [if_pos hs, if_pos hs, List.map_map]
    have : (Prod.fst ∘ fun p : α × ℚ => if p.1 = k then (p.1, p.2 + v) else p)
        = Prod.fst := by
      funext p
      by_cases hp : p.1 = k <;> simp [hp]
    rw [this]
  · rw [if_neg hs, if_neg hs, List.map_append]
    rfl

/-- Folding `addTo` preserves keys without duplicates. -/
theorem foldl_addTo_keys_nodup {α ι : Type} [DecidableEq α]
    (key : ι → α) (val : ι → ℚ) :
    ∀ (l : List ι) (d : List (α × ℚ)), (d.map Prod.fst).Nodup →
      ((l.foldl (fun d2 x => addTo d2 (key x) (val x)) d).map Prod.fst).Nodup := by
  intro l
  induction l with
  | nil => intro d h; exact h
  | cons x xs ih =>
    intro d h
    rw [List.foldl_cons]
    apply ih
    rw [addTo_keys]
    by_cases hs : (alookup d (key x)).isSome
    · rw [if_pos hs]; exact h
    · rw [if_neg hs]
      rw [List.nodup_append]
      refine ⟨h, List.nodup_singleton _, ?_⟩
      intro y hy hy2
      rcases List.mem_singleton.mp hy2 with h2
      rw [h2] at hy
      have : alookup d (key x) = none := by
        cases hd : alookup d (key x) with
        | none => rfl
        | some c => rw [hd] at hs; simp at hs
      exact (alookup_eq_none d (key x)).mp this hy

/-- What one step of the VM-count loop can do: skip a non-positive entry,
or append the ceiling entry for a positive one. -/
theorem icsStep_cases (p : Problem) (tsu : TimeUnit)
    (acc : List ((App × InstanceClass) × ℚ)) (kv : (App × InstanceClass) × ℚ)
    (acc2 : List ((App × InstanceClass) × ℚ))
    (h : icsStep p tsu acc kv = Except.ok acc2) :
    (¬ kv.2 > 0 ∧ acc2 = acc) ∨
    (kv.2 > 0 ∧ ∃ perf pts, alookup p.system.perfs kv.1 = some perf ∧
      perf.value.to tsu = some pts ∧ pts ≠ 0 ∧
      acc2 = acc ++ [(kv.1, ((⌈kv.2 / pts⌉ : ℤ) : ℚ))]) := by
  unfold icsStep at h
  cases hperf : alookup p.system.perfs kv.1 with
  | none =>
    simp only [hperf, orThrow, except_bind_err] at h
    exact Except.noConfusion h
  | some perf =>
    simp only [hperf, orThrow, except_bind_ok] at h
    cases hpts : perf.value.to tsu with
    | none =>
      simp only [hpts, orThrow, except_bind_err] at h
      exact Except.noConfusion h
    | some pts =>
      simp only [hpts, orThrow, except_bind_ok] at h
      by_cases hpos : kv.2 > 0
      · rw [if_pos hpos] at h
        by_cases hz : pts = 0
        · rw [if_pos hz] at h
          exact Except.noConfusion h
        · rw [if_neg hz] at h
          simp only [pure, Except.pure, Except.ok.injEq] at h
          exact Or.inr ⟨hpos, perf, pts, rfl, hpts, hz, Eq.symm h⟩
      · rw [if_neg hpos] at h
        simp only [pure, Except.pure, Except.ok.injEq] at h
        exact Or.inl ⟨hpos, Eq.symm h⟩

/-- The VM-count loop never touches keys outside the workload dict. -/
theorem ics_fold_keep (p : Problem) (tsu : TimeUnit) :
    ∀ (d : List ((App × InstanceClass) × ℚ)) acc res,
      d.foldlM (icsStep p tsu) acc = Except.ok res →
      ∀ k : App × InstanceClass, (∀ kv ∈ d, kv.1 ≠ k) →
        alookup res k = alookup acc k := by
  intro d
  induction d with
  | nil =>
    intro acc res h k _
    simp only [List.foldlM_nil, pure, Except.pure, Except.ok.injEq] at h
    rw [← h]
  | cons kv rest ih =>
    intro acc res h k hk
    rw [List.foldlM_cons] at h
    cases hstep : icsStep p tsu acc kv with
    | error e =>
      rw [hstep, except_bind_err] at h
      exact Except.noConfusion h
    | ok acc2 =>
      rw [hstep, except_bind_ok] at h
      have h2 := ih acc2 res h k
        (fun kv2 hkv2 => hk kv2 (List.mem_cons_of_mem _ hkv2))
      rw [h2]
      rcases icsStep_cases p tsu acc kv acc2 hstep with
        ⟨-, he⟩ | ⟨-, perf, pts, -, -, -, he⟩
      · rw [he]
      · rw [he, alookup_append]
        have hone : alookup [(kv.1, ((⌈kv.2 / pts⌉ : ℤ) : ℚ))] k = none := by
          simp [alookup, hk kv (List.mem_cons_self _ _)]
        cases hacc : alookup acc k with
        | none => simp [hone]
        | some c => simp

/-- The VM-count loop records the ceiling for every positive workload
entry (keys are unique in the workload dict). -/
theorem ics_fold_lookup (p : Problem) (tsu : TimeUnit) :
    ∀ (d : List ((App × InstanceClass) × ℚ)) acc res,
      d.foldlM (icsStep p tsu) acc = Except.ok res →
      (d.map Prod.fst).Nodup →
      ∀ k w, alookup d k = some w → 0 < w →
        ∀ perf pts, alookup p.system.perfs k = some perf →
          perf.value.to tsu = some pts →
          alookup acc k = none →
          alookup res k = some ((⌈w / pts⌉ : ℤ) : ℚ) := by
  intro d
  induction d with
  | nil =>
    intro acc res h hnd k w hk
    simp [alookup] at hk
  | cons kv rest ih =>
    intro acc res h hnd k w hk hw perf pts hperf hpts hacc
    rw [List.foldlM_cons] at h
    rw [List.map_cons] at hnd
    cases hstep : icsStep p tsu acc kv with
    | error e =>
      rw [hstep, except_bind_err] at h
      exact Except.noConfusion h
    | ok acc2 =>
      rw [hstep, except_bind_ok] at h
      by_cases hk1 : kv.1 = k
      · have hw2 : kv.2 = w := by
          rw [show alookup (kv :: rest) k = some kv.2 from by
            simp [alookup, hk1]] at hk
          exact Option.some.inj hk
        rcases icsStep_cases p tsu acc kv acc2 hstep with
          ⟨hneg, -⟩ | ⟨-, perf2, pts2, hperf2, hpts2, -, he⟩
        · exfalso
          rw [hw2] at hneg
          exact hneg hw
        · rw [hk1, hperf] at hperf2
          have hpe : perf2 = perf := (Option.some.inj hperf2).symm
          rw [hpe, hpts] at hpts2
          have hpts2e : pts2 = pts := (Option.some.inj hpts2).symm
          have hrestne : ∀ kv2 ∈ rest, kv2.1 ≠ k := by
            intro kv2 hkv2 hh
            have hmem : kv.1 ∈ rest.map Prod.fst := by
              rw [hk1, ← hh]
              exact List.mem_map_of_mem _ hkv2
            exact (List.nodup_cons.mp hnd).1 hmem
          rw [ics_fold_keep p tsu rest acc2 res h k hrestne]
          rw [he, alookup_append, hacc]
          simp [alookup, hk1, hw2, hpts2e]
      · have hk2 : alookup rest k = some w := by
          rw [show alookup (kv :: rest) k = alookup rest k from by
            simp [alookup, hk1]] at hk
          exact hk
        have hacc2 : alookup acc2 k = none := by
          rcases icsStep_cases p tsu acc kv acc2 hstep with
            ⟨-, he⟩ | ⟨-, perf2, pts2, -, -, -, he⟩
          · rw [he]; exact hacc
          · rw [he, alookup_append, hacc]
            simp [alookup, hk1]
        exact ih acc2 res h (List.nodup_cons.mp hnd).2 k w hk2 hw perf pts
          hperf hpts hacc2

/-- Under unique keys, a stored pair is what lookup finds. -/
theorem alookup_of_mem_nodup {α : Type} [DecidableEq α] :
    ∀ (d : List (α × ℚ)), (d.map Prod.fst).Nodup →
      ∀ kv ∈ d, alookup d kv.1 = some kv.2 := by
  intro d
  induction d with
  | nil => intro _ kv hkv; simp at hkv
  | cons x xs ih =>
    intro hnd kv hkv
    rw [List.map_cons] at hnd
    rcases List.mem_cons.mp hkv with h1 | h1
    · rw [h1]
      simp [alookup]
    · by_cases hx : x.1 = kv.1
      · exfalso
        apply (List.nodup_cons.mp hnd).1
        rw [hx]
        exact List.mem_map_of_mem _ h1
      · rw [show alookup (x :: xs) kv.1 = alookup xs kv.1 from by
          simp [alookup, hx]]
        exact ih (List.nodup_cons.mp hnd).2 kv h1

/-- The VM-count loop records nothing for a key all of whose workload
entries are non-positive. -/
theorem ics_fold_none (p : Problem) (tsu : TimeUnit) :
    ∀ (d : List ((App × InstanceClass) × ℚ)) acc res,
      d.foldlM (icsStep p tsu) acc = Except.ok res →
      ∀ k : App × InstanceClass, alookup acc k = none →
        (∀ kv ∈ d, kv.1 = k → ¬ kv.2 > 0) →
        alookup res k = none := by
  intro d
  induction d with
  | nil =>
    intro acc res h k hacc _
    simp only [List.foldlM_nil, pure, Except.pure, Except.ok.injEq] at h
    rw [← h]
    exact hacc
  | cons kv rest ih =>
    intro acc res h k hacc hnp
    rw [List.foldlM_cons] at h
    cases hstep : icsStep p tsu acc kv with
    | error e =>
      rw [hstep, except_bind_err] at h
      exact Except.noConfusion h
    | ok acc2 =>
      rw [hstep, except_bind_ok] at h
      have hacc2 : alookup acc2 k = none := by
        rcases icsStep_cases p tsu acc kv acc2 hstep with
          ⟨-, he⟩ | ⟨hpos, perf, pts, -, -, -, he⟩
        · rw [he]; exact hacc
        · have hk1 : kv.1 ≠ k := by
            intro hh
            exact hnp kv (List.mem_cons_self _ _) hh hpos
          rw [he, alookup_append, hacc]
          simp [alookup, hk1]
      exact ih acc2 res h k hacc2
        (fun kv2 hkv2 => hnp kv2 (List.mem_cons_of_mem _ hkv2))

/-- C6 (amended): on a successful greedy slot computation, the recorded
request count of every processed (app, region) pair equals that region's
slot workload (zero-workload pairs included), the VM count of every
(app, chosen ic) with positive aggregated workload is the ceiling of the
workload summed over the routed source regions divided by the performance
per time slot, and no VM count is recorded for a pair whose aggregated
workload is not positive. -/
theorem greedy_time_slot_alloc (p : Problem) (ts : ℕ)
    (tsa : TimeSlotAllocation) (hA : p.system.apps.Nodup)
    (h : SimpleCostAllocator.compute_alloc_time_slot p ts = Except.ok tsa) :
    (∀ a ∈ p.system.apps, ∀ (r : Region) (w : Workload) (i : InstanceClass),
        alookup p.workloads (a, r) = some w →
        chooseIcOpt p.system a r = some i →
        alookup tsa.reqs (a, r, i) = some (slotWl p ts a r))
    ∧ (∀ a ∈ p.system.apps, ∀ i : InstanceClass,
        0 < routedSum p ts a i →
        ∀ tsu perf pts, p.time_slot_unit = some tsu →
          alookup p.system.perfs (a, i) = some perf →
          perf.value.to tsu = some pts →
          alookup tsa.ics (a, i) =
            some ((⌈routedSum p ts a i / pts⌉ : ℤ) : ℚ))
    ∧ (∀ (a : App) (i : InstanceClass), ¬ 0 < routedSum p ts a i →
        alookup tsa.ics (a, i) = none) := by
  unfold SimpleCostAllocator.compute_alloc_time_slot at h
  cases hwr : SimpleCostAllocator.compute_wl_ic_app p ts with
  | error e =>
    rw [hwr, except_bind_err] at h
    exact Except.noConfusion h
  | ok wr =>
    rw [hwr, except_bind_ok] at h
    cases htsu0 : p.time_slot_unit with
    | none =>
      rw [htsu0] at h
      simp only [orThrow, except_bind_err] at h
      exact Except.noConfusion h
    | some tsu0 =>
      rw [htsu0] at h
      simp only [orThrow, except_bind_ok] at h
      cases hics : wr.1.foldlM (icsStep p tsu0) [] with
      | error e =>
        rw [hics, except_bind_err] at h
        exact Except.noConfusion h
      | ok ics0 =>
        rw [hics, except_bind_ok] at h
        simp only [pure, Except.pure, Except.ok.injEq] at h
        have hwr2 : (p.system.apps.flatMap
            (fun a => p.regions.map (fun r => (a, r)))).foldlM
            (wlStepM p ts) ([], []) = Except.ok wr := by
          rw [← compute_wl_flat p ts p.system.apps ([], [])]
          exact hwr
        have hpure := foldlM_wlStep_pure p ts _ ([], []) wr hwr2
        rw [foldl_wlStep_contribs] at hpure
        have hndR : (p.regions).Nodup := by
          rw [regions_eq p]
          exact firstSeen_nodup _
        refine ⟨?_, ?_, ?_⟩
        · intro a ha r w i hw hc
          have hrR : r ∈ p.regions := by
            rw [regions_eq p, firstSeen_mem]
            apply List.mem_append_right
            have hkey : (a, r) ∈ p.workloads.map Prod.fst := by
              by_contra hno
              rw [← alookup_eq_none p.workloads (a, r)] at hno
              rw [hno] at hw
              exact Option.noConfusion hw
            rcases List.mem_map.mp hkey with ⟨kv, hkv, hkv2⟩
            apply List.mem_map.mpr
            exact ⟨kv, hkv, by rw [hkv2]⟩
          have hreqs : tsa.reqs =
              (contribs p ts (p.system.apps.flatMap
                (fun a2 => p.regions.map (fun r2 => (a2, r2))))).foldl
                  (fun d it => addTo d it.1 it.2) [] := by
            rw [← h]
            rw [hpure]
          have hfil : (contribs p ts (p.system.apps.flatMap
              (fun a2 => p.regions.map (fun r2 => (a2, r2))))).filter
                (fun it => it.1 = (a, r, i))
              = [((a, r, i), ((w.values.getD ts 0 : ℤ) : ℚ))] := by
            rw [contribs_product_filter p ts p.regions a
              (fun it => it.1 = (a, r, i))
              (by
                intro it hit
                simp only [decide_eq_true_eq] at hit
                rw [hit])
              p.system.apps hA ha]
            exact contribs_segment_req p ts a p.regions hndR r hrR i w hw hc
          have hlook := alookup_foldl_addTo
            (fun it : (App × Region × InstanceClass) × ℚ => it.1)
            (fun it => it.2)
            (contribs p ts (p.system.apps.flatMap
              (fun a2 => p.regions.map (fun r2 => (a2, r2))))) [] (a, r, i)
          simp only [] at hlook
          rw [hreqs, hlook, hfil]
          have hslot : slotWl p ts a r = ((w.values.getD ts 0 : ℤ) : ℚ) := by
            unfold slotWl
            rw [hw]
          rw [hslot]
          simp [alookup]
        · intro a ha i hpos tsu perf pts htsu hperf hpts
          have htsue : tsu = tsu0 := (Option.some.inj htsu).symm
          rw [htsue] at hpts
          have hics1 : tsa.ics = ics0 := by rw [← h]
          have hwl1 : wr.1 =
              (contribs p ts (p.system.apps.flatMap
                (fun a2 => p.regions.map (fun r2 => (a2, r2))))).foldl
                  (fun d it => addTo d (it.1.1, it.1.2.2) it.2) [] := by
            rw [hpure]
          have hfil : (contribs p ts (p.system.apps.flatMap
              (fun a2 => p.regions.map (fun r2 => (a2, r2))))).filter
                (fun it => (it.1.1, it.1.2.2) = (a, i))
              = (routedRegions p a i).map
                  (fun r => ((a, r, i), slotWl p ts a r)) := by
            rw [contribs_product_filter p ts p.regions a
              (fun it => (it.1.1, it.1.2.2) = (a, i))
              (by
                intro it hit
                simp only [decide_eq_true_eq, Prod.mk.injEq] at hit
                exact hit.1)
              p.system.apps hA ha]
            exact contribs_segment_key p ts a i p.regions
          have hlook := alookup_foldl_addTo
            (fun it : (App × Region × InstanceClass) × ℚ => (it.1.1, it.1.2.2))
            (fun it => it.2)
            (contribs p ts (p.system.apps.flatMap
              (fun a2 => p.regions.map (fun r2 => (a2, r2))))) [] (a, i)
          simp only [] at hlook
          have hne2 : routedRegions p a i ≠ [] := by
            intro hnil
            rw [show routedSum p ts a i = 0 from by
              unfold routedSum
              rw [hnil]
              simp] at hpos
            exact lt_irrefl 0 hpos
          have hlookup_wl : alookup wr.1 (a, i) = some (routedSum p ts a i) := by
            rw [hwl1, hlook, hfil]
            rw [if_neg (by
              intro hempty
              rw [List.isEmpty_iff] at hempty
              rcases List.map_eq_nil_iff.mp hempty with hnil
              exact hne2 hnil)]
            rw [List.map_map]
            have hcomp : ((fun it : (App × Region × InstanceClass) × ℚ => it.2) ∘
                (fun r => ((a, r, i), slotWl p ts a r)))
                = fun r => slotWl p ts a r := by
              funext r
              rfl
            rw [hcomp]
            unfold routedSum
            simp [alookup]
          have hnd1 : (wr.1.map Prod.fst).Nodup := by
            rw [hwl1]
            have hnod := foldl_addTo_keys_nodup
              (fun it : (App × Region × InstanceClass) × ℚ => (it.1.1, it.1.2.2))
              (fun it => it.2)
              (contribs p ts (p.system.apps.flatMap
                (fun a2 => p.regions.map (fun r2 => (a2, r2))))) []
              (by simp)
            simp only [] at hnod
            exact hnod
          rw [hics1]
          exact ics_fold_lookup p tsu0 wr.1 [] ics0 hics hnd1 (a, i)
            (routedSum p ts a i) hlookup_wl hpos perf pts hperf hpts
            (by simp [alookup])
        · intro a i hns
          have hics1 : tsa.ics = ics0 := by rw [← h]
          have hwl1 : wr.1 =
              (contribs p ts (p.system.apps.flatMap
                (fun a2 => p.regions.map (fun r2 => (a2, r2))))).foldl
                  (fun d it => addTo d (it.1.1, it.1.2.2) it.2) [] := by
            rw [hpure]
          have hlook := alookup_foldl_addTo
            (fun it : (App × Region × InstanceClass) × ℚ => (it.1.1, it.1.2.2))
            (fun it => it.2)
            (contribs p ts (p.system.apps.flatMap
              (fun a2 => p.regions.map (fun r2 => (a2, r2))))) [] (a, i)
          simp only [] at hlook
          have hnd1 : (wr.1.map Prod.fst).Nodup := by
            rw [hwl1]
            have hnod := foldl_addTo_keys_nodup
              (fun it : (App × Region × InstanceClass) × ℚ => (it.1.1, it.1.2.2))
              (fun it => it.2)
              (contribs p ts (p.system.apps.flatMap
                (fun a2 => p.regions.map (fun r2 => (a2, r2))))) []
              (by simp)
            simp only [] at hnod
            exact hnod
          rw [hics1]
          apply ics_fold_none p tsu0 wr.1 [] ics0 hics (a, i)
            (by simp [alookup])
          intro kv hkv hk1 hpos2
          have hkv_look : alookup wr.1 (a, i) = some kv.2 := by
            have h2 := alookup_of_mem_nodup wr.1 hnd1 kv hkv
            rw [hk1] at h2
            exact h2
          rw [hwl1, hlook] at hkv_look
          by_cases hemp : ((contribs p ts (p.system.apps.flatMap
              (fun a2 => p.regions.map (fun r2 => (a2, r2))))).filter
                (fun it => (it.1.1, it.1.2.2) = (a, i))).isEmpty
          · rw [if_pos hemp] at hkv_look
            simp [alookup] at hkv_look
          · rw [if_neg hemp] at hkv_look
            have hafil : a ∈ p.system.apps := by
              have hne : (contribs p ts (p.system.apps.flatMap
                  (fun a2 => p.regions.map (fun r2 => (a2, r2))))).filter
                    (fun it => (it.1.1, it.1.2.2) = (a, i)) ≠ [] := by
                intro hnil
                rw [hnil] at hemp
                simp at hemp
              rcases List.exists_mem_of_ne_nil _ hne with ⟨it, hit⟩
              rcases List.mem_filter.mp hit with ⟨hitC, hitq⟩
              simp only [decide_eq_true_eq, Prod.mk.injEq] at hitq
              rcases contribs_mem p ts _ it hitC with ⟨pr, hpr, hpr1, -⟩
              rcases List.mem_flatMap.mp hpr with ⟨a2, ha2, hpr2⟩
              rcases List.mem_map.mp hpr2 with ⟨r2, -, hr2⟩
              rw [← hitq.1, hpr1, ← hr2]
              exact ha2
            have hfil : (contribs p ts (p.system.apps.flatMap
                (fun a2 => p.regions.map (fun r2 => (a2, r2))))).filter
                  (fun it => (it.1.1, it.1.2.2) = (a, i))
                = (routedRegions p a i).map
                    (fun r => ((a, r, i), slotWl p ts a r)) := by
              rw [contribs_product_filter p ts p.regions a
                (fun it => (it.1.1, it.1.2.2) = (a, i))
                (by
                  intro it hit
                  simp only [decide_eq_true_eq, Prod.mk.injEq] at hit
                  exact hit.1)
                p.system.apps hA hafil]
              exact contribs_segment_key p ts a i p.regions
            rw [hfil, List.map_map] at hkv_look
            have hcomp : ((fun it : (App × Region × InstanceClass) × ℚ => it.2) ∘
                (fun r => ((a, r, i), slotWl p ts a r)))
                = fun r => slotWl p ts a r := by
              funext r
              rfl
            rw [hcomp] at hkv_look
            have hkv2 : kv.2 = routedSum p ts a i := by
              have h3 := Option.some.inj hkv_look
              rw [← h3]
              unfold routedSum
              simp [alookup]
            rw [hkv2] at hpos2
            exact hns hpos2

/-- A one-slot workload with a parameterized request count. -/
def wlV (v : ℤ) : Workload := { values := [v], time_unit := tuH }

/-- A problem over `sys0` with one workload entry of `v` requests. -/
def probV (v : ℤ) : Problem :=
  { system := sys0, workloads := [((app0, regDublin), wlV v)] }

/-- Concrete greedy workload dicts on `probV v`: the (app, region) pair is
processed and recorded whatever its workload value. -/
theorem compute_wl_probV (v : ℤ) :
    SimpleCostAllocator.compute_wl_ic_app (probV v) 0 =
      Except.ok ([((app0, ic0), (v : ℚ))], [((app0, regDublin, ic0), (v : ℚ))]) := by
  unfold SimpleCostAllocator.compute_wl_ic_app
  rw [show (probV v).system.apps = [app0] from rfl]
  rw [show (probV v).regions = [regIreland, regDublin] from rfl]
  simp only [List.foldlM_cons, List.foldlM_nil]
  rw [show wlStepM (probV v) 0 ([], []) (app0, regIreland) =
      Except.ok ([], []) from by
    unfold wlStepM
    rw [show alookup (probV v).workloads (app0, regIreland) = none from rfl]
    rfl]
  rw [except_bind_ok]
  rw [show wlStepM (probV v) 0 ([], []) (app0, regDublin) =
      Except.ok ([((app0, ic0), (v : ℚ))],
                 [((app0, regDublin, ic0), (v : ℚ))]) from by
    unfold wlStepM
    rw [show alookup (probV v).workloads (app0, regDublin) = some (wlV v)
      from rfl]
    dsimp only
    rw [show (wlV v).values[(0:ℕ)]? = some v from rfl]
    simp only [orThrow, except_bind_ok]
    rw [show (probV v).system = sys0 from rfl, chooser_sys0, except_bind_ok]
    rw [show addTo ([] : List ((App × InstanceClass) × ℚ)) (app0, ic0)
        ((v : ℤ) : ℚ) = [((app0, ic0), (v : ℚ))] from by
      simp [addTo, alookup]]
    rw [show addTo ([] : List ((App × Region × InstanceClass) × ℚ))
        (app0, regDublin, ic0) ((v : ℤ) : ℚ)
        = [((app0, regDublin, ic0), (v : ℚ))] from by
      simp [addTo, alookup]]
    rfl]
  rw [except_bind_ok]
  rfl

/-- C6 counterexample: a zero-workload (app, src-region) pair is still
processed by the greedy allocator — the chooser runs and a request entry
of 0 is recorded — contradicting the claim that only pairs with positive
workload are processed. -/
theorem greedy_processes_zero_workload :
    alookup (probV 0).workloads (app0, regDublin) = some (wlV 0) ∧
    (wlV 0).values.getD 0 0 = 0 ∧
    SimpleCostAllocator.compute_wl_ic_app (probV 0) 0 =
      Except.ok ([((app0, ic0), 0)], [((app0, regDublin, ic0), 0)]) := by
  refine ⟨rfl, rfl, ?_⟩
  have h := compute_wl_probV 0
  simpa using h

/-- The concrete performance per hour of `perf0`. -/
theorem perf0_to_tuH : perf0.value.to tuH = some 5 := by
  unfold TimeRatioValue.to
  rw [show perf0.value.units.to tuH.unit = some 1 from by
    unfold TimeUnit.to
    simp only [perf0, tuH, cf_h]
    norm_num]
  norm_num [perf0]

/-- The resulting time-slot allocation on `probV 10`. -/
def tsa10 : TimeSlotAllocation :=
  { ics := [((app0, ic0), ((2 : ℤ) : ℚ))],
    reqs := [((app0, regDublin, ic0), ((10 : ℤ) : ℚ))] }

/-- Concrete greedy slot allocation on `probV 10`: 10 requests at 5 req/h
need 2 VMs. -/
theorem compute_alloc_prob10 :
    SimpleCostAllocator.compute_alloc_time_slot (probV 10) 0 =
      Except.ok tsa10 := by
  unfold SimpleCostAllocator.compute_alloc_time_slot
  rw [compute_wl_probV 10, except_bind_ok]
  rw [show (probV 10).time_slot_unit = some tuH from rfl]
  simp only [orThrow, except_bind_ok]
  rw [show List.foldlM (icsStep (probV 10) tuH) []
      [((app0, ic0), (((10 : ℤ)) : ℚ))]
      = Except.ok [((app0, ic0), ((2 : ℤ) : ℚ))] from by
    simp only [List.foldlM_cons, List.foldlM_nil]
    rw [show icsStep (probV 10) tuH [] ((app0, ic0), (((10 : ℤ)) : ℚ))
        = Except.ok [((app0, ic0), ((2 : ℤ) : ℚ))] from by
      unfold icsStep
      rw [show alookup (probV 10).system.perfs (app0, ic0) = some perf0
        from rfl]
      simp only [orThrow, except_bind_ok]
      rw [perf0_to_tuH]
      simp only [orThrow, except_bind_ok]
      rw [if_pos (by norm_num), if_neg (by norm_num)]
      rw [show (((10 : ℤ) : ℚ)) / 5 = ((2 : ℤ) : ℚ) from by norm_num]
      rw [Int.ceil_intCast]
      rfl]
    rw [except_bind_ok]
    rfl]
  rw [except_bind_ok]
  rfl

/-- C6 witness: the greedy slot characterization at the concrete
ten-request problem. -/
theorem greedy_time_slot_alloc_witness :
    (∀ a ∈ (probV 10).system.apps,
        ∀ (r : Region) (w : Workload) (i : InstanceClass),
        alookup (probV 10).workloads (a, r) = some w →
        chooseIcOpt (probV 10).system a r = some i →
        alookup tsa10.reqs (a, r, i) = some (slotWl (probV 10) 0 a r))
    ∧ (∀ a ∈ (probV 10).system.apps, ∀ i : InstanceClass,
        0 < routedSum (probV 10) 0 a i →
        ∀ tsu perf pts, (probV 10).time_slot_unit = some tsu →
          alookup (probV 10).system.perfs (a, i) = some perf →
          perf.value.to tsu = some pts →
          alookup tsa10.ics (a, i) =
            some ((⌈routedSum (probV 10) 0 a i / pts⌉ : ℤ) : ℚ))
    ∧ (∀ (a : App) (i : InstanceClass), ¬ 0 < routedSum (probV 10) 0 a i →
        alookup tsa10.ics (a, i) = none) :=
  greedy_time_slot_alloc (probV 10) 0 tsa10 (by decide) compute_alloc_prob10

end edarop
